import Mathlib

set_option maxHeartbeats 1000000

/-! Verification development for the Hydra columnar storage engine
    (`src/columnar/src/include/columnar/columnar.h`).

    Struct layouts, enumerations and numeric limits are translated directly
    from the header.  The header only declares the engine's functions, so each
    function's behaviour is modelled from the design specification; every such
    definition carries a doc comment starting with `Modelled from the spec:`
    naming what is missing from the source tree.

    Modelling conventions: `Datum` is modelled as `Int` (an abstract orderable
    value), C pointers that may be NULL become `Option`, C arrays become
    `List`, and machine integers become `Nat`/`Int` (the engine's validated
    bounds keep all quantities far below any overflow boundary). -/

/-- Abstract column value (PostgreSQL `Datum`), modelled as an integer. -/
abbrev Datum := Int

/-- One table row as handed to `ColumnarWriteRow`: the `columnValues` and
    `columnNulls` arrays are packed into one list, `none` meaning the null
    flag is set for that column. -/
abbrev Row := List (Option Datum)

/-- Compression codec tag.  Modelled from the spec: `CompressionType` is
    declared in `columnar_compression.h`, which is not in the source tree;
    the spec describes a closed set of variants tagged by an enumerated
    type. -/
inductive CompressionType where
  | noCompression
  | pglz
  | lz4
  | zstd
deriving Repr, DecidableEq

/-- Limits for option parameters (columnar.h lines 47-53). -/
def STRIPE_ROW_COUNT_MINIMUM : Nat := 1000

/-- Upper bound for rows per stripe (columnar.h line 49). -/
def STRIPE_ROW_COUNT_MAXIMUM : Nat := 100000000

/-- Lower bound for rows per chunk group (columnar.h line 50). -/
def CHUNK_ROW_COUNT_MINIMUM : Nat := 1000

/-- Upper bound for rows per chunk group (columnar.h line 51). -/
def CHUNK_ROW_COUNT_MAXIMUM : Nat := 100000000

/-- Lower bound for the compression level (columnar.h line 52). -/
def COMPRESSION_LEVEL_MIN : Int := 1

/-- Upper bound for the compression level (columnar.h line 53). -/
def COMPRESSION_LEVEL_MAX : Int := 19

/-- Row mask segment size in rows (columnar.h line 66). -/
def COLUMNAR_ROW_MASK_CHUNK_SIZE : Nat := 10000

/-- ColumnarOptions holds the option values used when reading or writing a
    columnar table (columnar.h lines 73-79).  `uint64`/`uint32` fields are
    modelled as `Nat`, `int` as `Int`. -/
structure ColumnarOptions where
  stripeRowCount : Nat
  chunkRowCount : Nat
  compressionType : CompressionType
  compressionLevel : Int
deriving Repr, DecidableEq

/-- Modelled from the spec: option resolution is not in the source tree; the
    spec says option values outside the bounds (row-count limits, compression
    level range) are rejected at option-resolution time and never reach the
    write/read engines.  Resolution returns the options unchanged when every
    field is within bounds and rejects (`none`) otherwise. -/
def ValidateColumnarOptions (o : ColumnarOptions) : Option ColumnarOptions :=
  if STRIPE_ROW_COUNT_MINIMUM ≤ o.stripeRowCount ∧
      o.stripeRowCount ≤ STRIPE_ROW_COUNT_MAXIMUM ∧
      CHUNK_ROW_COUNT_MINIMUM ≤ o.chunkRowCount ∧
      o.chunkRowCount ≤ CHUNK_ROW_COUNT_MAXIMUM ∧
      COMPRESSION_LEVEL_MIN ≤ o.compressionLevel ∧
      o.compressionLevel ≤ COMPRESSION_LEVEL_MAX then
    some o
  else
    none

/-- PostgreSQL tuple pointer: a block number (32 bits on disk) and a 1-based
    item offset within the block. -/
structure ItemPointerData where
  ip_blkid : Nat
  ip_posid : Nat
deriving Repr, DecidableEq

/-- Modelled from the spec: the packing constant of the row-number-to-tid
    scheme (the number of valid item offsets per block) is not in the source
    tree; the spec only requires an explicit, reversible bit-packing scheme.
    The concrete value is the PostgreSQL page item capacity; every theorem
    below depends only on the constant being positive. -/
def VALID_ITEMPOINTER_OFFSETS : Nat := 2048

/-- Modelled from the spec: the largest row number whose tid encoding keeps
    the block number within 32 bits. -/
def COLUMNAR_MAX_ROW_NUMBER : Nat := 4294967296 * VALID_ITEMPOINTER_OFFSETS - 1

/-- Modelled from the spec: `row_number_to_tid` (declared columnar.h line 326)
    derives the externally visible tuple pointer from a row number by an
    explicit reversible packing: block = quotient, offset = remainder shifted
    to the 1-based offset range. -/
def row_number_to_tid (rowNumber : Nat) : ItemPointerData :=
  { ip_blkid := rowNumber / VALID_ITEMPOINTER_OFFSETS
    ip_posid := rowNumber % VALID_ITEMPOINTER_OFFSETS + 1 }

/-- Modelled from the spec: the inverse mapping the system must be able to
    apply to a tuple pointer produced by `row_number_to_tid`. -/
def tid_to_row_number (tid : ItemPointerData) : Nat :=
  tid.ip_blkid * VALID_ITEMPOINTER_OFFSETS + (tid.ip_posid - 1)

/-- ChunkData represents a chunk of data for multiple columns (columnar.h
    lines 135-149).  `existsArray`/`valueArray` are indexed by
    column then row; a NULL per-column pointer is `none`.  `valueBufferArray`
    keeps the per-column serialized buffers for by-reference datums, modelled
    as opaque byte strings. -/
structure ChunkData where
  rowCount : Nat
  columnCount : Nat
  existsArray : List (Option (List Bool))
  valueArray : List (Option (List Datum))
  valueBufferArray : List (Option String)
deriving Repr, DecidableEq

/-- Invariant of `ChunkData` stated by the header comment: for each projected
    column the exists and value arrays are present with exactly `rowCount`
    entries each (one-to-one correspondence), and for each non-projected
    column both per-column pointers are NULL. -/
def ChunkDataInvariant (cd : ChunkData) (columnMask : List Bool) : Prop :=
  cd.existsArray.length = cd.columnCount ∧
  cd.valueArray.length = cd.columnCount ∧
  ∀ c, c < cd.columnCount →
    (columnMask.getD c false = true →
      ∃ es vs, cd.existsArray.getD c none = some es ∧
        cd.valueArray.getD c none = some vs ∧
        es.length = cd.rowCount ∧ vs.length = cd.rowCount) ∧
    (columnMask.getD c false = false →
      cd.existsArray.getD c none = none ∧ cd.valueArray.getD c none = none)

/-- Modelled from the spec: `CreateEmptyChunkData` (declared columnar.h lines
    320-321) allocates, for every projected column, zeroed exists and value
    arrays of `chunkGroupRowCount` entries, leaves the per-column pointers of
    non-projected columns NULL, and leaves the value buffers unset. -/
def CreateEmptyChunkData (columnCount : Nat) (columnMask : List Bool)
    (chunkGroupRowCount : Nat) : ChunkData :=
  { rowCount := chunkGroupRowCount
    columnCount := columnCount
    existsArray := (List.range columnCount).map fun c =>
      if columnMask.getD c false then some (List.replicate chunkGroupRowCount false)
      else none
    valueArray := (List.range columnCount).map fun c =>
      if columnMask.getD c false then some (List.replicate chunkGroupRowCount (0 : Datum))
      else none
    valueBufferArray := (List.range columnCount).map fun _ => none }

/-- Modelled from the spec: `FreeChunkData` (declared columnar.h line 322)
    walks the per-column exists and value arrays together and releases them;
    it dereferences the two arrays in lockstep, which is meaningful only when
    `existsArray[c]` is present exactly when `valueArray[c]` is.  The model
    returns `none` (undefined behaviour) when that pairing is violated. -/
def FreeChunkData (cd : ChunkData) : Option Unit :=
  if (List.range cd.columnCount).all
      (fun c => (cd.existsArray.getD c none).isSome = (cd.valueArray.getD c none).isSome) then
    some ()
  else
    none

/-- C5: every `ColumnarOptions` value accepted at option-resolution time is
    returned unchanged and satisfies 1000 ≤ stripeRowCount ≤ 100000000,
    1000 ≤ chunkRowCount ≤ 100000000 and 1 ≤ compressionLevel ≤ 19; by
    contraposition an out-of-bounds value is never accepted, so it cannot
    reach the write or read engines. -/
theorem columnar_options_resolution_bounds (o o' : ColumnarOptions)
    (h : ValidateColumnarOptions o = some o') :
    o' = o ∧
    STRIPE_ROW_COUNT_MINIMUM ≤ o'.stripeRowCount ∧
    o'.stripeRowCount ≤ STRIPE_ROW_COUNT_MAXIMUM ∧
    CHUNK_ROW_COUNT_MINIMUM ≤ o'.chunkRowCount ∧
    o'.chunkRowCount ≤ CHUNK_ROW_COUNT_MAXIMUM ∧
    COMPRESSION_LEVEL_MIN ≤ o'.compressionLevel ∧
    o'.compressionLevel ≤ COMPRESSION_LEVEL_MAX := by
  unfold ValidateColumnarOptions at h
  split at h
  · rename_i hb
    cases h
    exact ⟨rfl, hb.1, hb.2.1, hb.2.2.1, hb.2.2.2.1, hb.2.2.2.2.1, hb.2.2.2.2.2⟩
  · exact absurd h (by simp)

/-- Witness for C5 at a concrete in-bounds options value. -/
theorem columnar_options_resolution_bounds_witness :
    (⟨150000, 10000, .zstd, 3⟩ : ColumnarOptions) = ⟨150000, 10000, .zstd, 3⟩ ∧
    STRIPE_ROW_COUNT_MINIMUM ≤ (⟨150000, 10000, .zstd, 3⟩ : ColumnarOptions).stripeRowCount ∧
    (⟨150000, 10000, .zstd, 3⟩ : ColumnarOptions).stripeRowCount ≤ STRIPE_ROW_COUNT_MAXIMUM ∧
    CHUNK_ROW_COUNT_MINIMUM ≤ (⟨150000, 10000, .zstd, 3⟩ : ColumnarOptions).chunkRowCount ∧
    (⟨150000, 10000, .zstd, 3⟩ : ColumnarOptions).chunkRowCount ≤ CHUNK_ROW_COUNT_MAXIMUM ∧
    COMPRESSION_LEVEL_MIN ≤ (⟨150000, 10000, .zstd, 3⟩ : ColumnarOptions).compressionLevel ∧
    (⟨150000, 10000, .zstd, 3⟩ : ColumnarOptions).compressionLevel ≤ COMPRESSION_LEVEL_MAX :=
  columnar_options_resolution_bounds ⟨150000, 10000, .zstd, 3⟩ ⟨150000, 10000, .zstd, 3⟩
    (by decide)

/-- C8: the row-number-to-tid mapping is invertible on every valid row number
    (applying the inverse mapping yields the row number again, and the block
    number stays within 32 bits), hence injective on valid row numbers. -/
theorem row_number_to_tid_invertible (r : Nat) (h : r ≤ COLUMNAR_MAX_ROW_NUMBER) :
    tid_to_row_number (row_number_to_tid r) = r ∧
    (row_number_to_tid r).ip_blkid < 4294967296 ∧
    ∀ r₂, r₂ ≤ COLUMNAR_MAX_ROW_NUMBER →
      row_number_to_tid r = row_number_to_tid r₂ → r = r₂ := by
  have hK : 0 < VALID_ITEMPOINTER_OFFSETS := by decide
  have hinv : ∀ n : Nat, tid_to_row_number (row_number_to_tid n) = n := by
    intro n
    unfold tid_to_row_number row_number_to_tid
    simp only [Nat.add_sub_cancel]
    exact Nat.div_add_mod' n VALID_ITEMPOINTER_OFFSETS
  refine ⟨hinv r, ?_, ?_⟩
  · unfold row_number_to_tid
    have hlt : r < 4294967296 * VALID_ITEMPOINTER_OFFSETS := by
      have := h
      unfold COLUMNAR_MAX_ROW_NUMBER at this
      omega
    exact Nat.div_lt_of_lt_mul (by omega)
  · intro r₂ _ heq
    calc r = tid_to_row_number (row_number_to_tid r) := (hinv r).symm
      _ = tid_to_row_number (row_number_to_tid r₂) := by rw [heq]
      _ = r₂ := hinv r₂

/-- Witness for C8 at a concrete valid row number. -/
theorem row_number_to_tid_invertible_witness :
    tid_to_row_number (row_number_to_tid 123456789) = 123456789 ∧
    (row_number_to_tid 123456789).ip_blkid < 4294967296 ∧
    ∀ r₂, r₂ ≤ COLUMNAR_MAX_ROW_NUMBER →
      row_number_to_tid 123456789 = row_number_to_tid r₂ → 123456789 = r₂ :=
  row_number_to_tid_invertible 123456789 (by decide)

lemma createEmptyChunkData_existsArray_getD (columnCount : Nat) (columnMask : List Bool)
    (n c : Nat) (hc : c < columnCount) :
    (CreateEmptyChunkData columnCount columnMask n).existsArray.getD c none =
      (if columnMask.getD c false then some (List.replicate n false) else none) := by
  unfold CreateEmptyChunkData
  simp only [List.getD_eq_getElem?_getD, List.getElem?_map, List.getElem?_range hc]
  rfl

lemma createEmptyChunkData_valueArray_getD (columnCount : Nat) (columnMask : List Bool)
    (n c : Nat) (hc : c < columnCount) :
    (CreateEmptyChunkData columnCount columnMask n).valueArray.getD c none =
      (if columnMask.getD c false then some (List.replicate n (0 : Datum)) else none) := by
  unfold CreateEmptyChunkData
  simp only [List.getD_eq_getElem?_getD, List.getElem?_map, List.getElem?_range hc]
  rfl

lemma createEmptyChunkData_invariant (columnCount : Nat) (columnMask : List Bool)
    (n : Nat) :
    ChunkDataInvariant (CreateEmptyChunkData columnCount columnMask n) columnMask := by
  refine ⟨by simp [CreateEmptyChunkData], by simp [CreateEmptyChunkData], ?_⟩
  intro c hc
  have hc' : c < columnCount := by simpa [CreateEmptyChunkData] using hc
  constructor
  · intro hproj
    refine ⟨List.replicate n false, List.replicate n (0 : Datum), ?_, ?_,
      by simp [CreateEmptyChunkData], by simp [CreateEmptyChunkData]⟩
    · rw [createEmptyChunkData_existsArray_getD columnCount columnMask n c hc', hproj]
      simp
    · rw [createEmptyChunkData_valueArray_getD columnCount columnMask n c hc', hproj]
      simp
  · intro hproj
    constructor
    · rw [createEmptyChunkData_existsArray_getD columnCount columnMask n c hc', hproj]
      simp
    · rw [createEmptyChunkData_valueArray_getD columnCount columnMask n c hc', hproj]
      simp

/-- C10: `CreateEmptyChunkData` establishes the `ChunkData` invariant (for
    each projected column the exists and value arrays hold exactly `rowCount`
    entries in one-to-one correspondence, for each non-projected column both
    are NULL), and `FreeChunkData` requires it: on any `ChunkData` satisfying
    the invariant the paired traversal it performs is well defined. -/
theorem chunk_data_invariant (columnCount : Nat) (columnMask : List Bool)
    (chunkGroupRowCount : Nat) (cd : ChunkData) (mask : List Bool)
    (hcd : ChunkDataInvariant cd mask) :
    ChunkDataInvariant (CreateEmptyChunkData columnCount columnMask chunkGroupRowCount)
      columnMask ∧
    FreeChunkData cd = some () := by
  refine ⟨createEmptyChunkData_invariant columnCount columnMask chunkGroupRowCount, ?_⟩
  unfold FreeChunkData
  rw [if_pos]
  rw [List.all_eq_true]
  intro c hc
  rw [List.mem_range] at hc
  obtain ⟨-, -, hcols⟩ := hcd
  obtain ⟨hproj, hnproj⟩ := hcols c hc
  rw [decide_eq_true_eq]
  by_cases hm : mask.getD c false = true
  · obtain ⟨es, vs, hes, hvs, -, -⟩ := hproj hm
    rw [hes, hvs]
    rfl
  · obtain ⟨hes, hvs⟩ := hnproj (by simpa using hm)
    rw [hes, hvs]
    rfl

/-- Witness for C10 at concrete arguments: three columns, middle one not
    projected. -/
theorem chunk_data_invariant_witness :
    ChunkDataInvariant (CreateEmptyChunkData 3 [true, false, true] 5)
      [true, false, true] ∧
    FreeChunkData (CreateEmptyChunkData 2 [true, true] 4) = some () :=
  chunk_data_invariant 3 [true, false, true] 5
    (CreateEmptyChunkData 2 [true, true] 4) [true, true]
    (createEmptyChunkData_invariant 2 [true, true] 4)

/-- ColumnChunkSkipNode contains statistics for a column chunk (columnar.h
    lines 83-109): min/max statistics, stream offsets and lengths, and the
    per-chunk compression choice. -/
structure ColumnChunkSkipNode where
  hasMinMax : Bool
  minimumValue : Datum
  maximumValue : Datum
  rowCount : Nat
  valueChunkOffset : Nat
  valueLength : Nat
  existsChunkOffset : Nat
  existsLength : Nat
  decompressedValueSize : Nat
  valueCompressionType : CompressionType
  valueCompressionLevel : Int
deriving Repr, DecidableEq

/-- StripeSkipList holds a column chunk skip node for each chunk of each
    column; `chunkSkipNodeArray[column][chunk]` is the entry for the
    specified column chunk (columnar.h lines 117-125). -/
structure StripeSkipList where
  chunkSkipNodeArray : List (List ColumnChunkSkipNode)
  chunkGroupRowCounts : List Nat
  chunkGroupRowOffset : List Nat
  chunkGroupDeletedRows : List Nat
  columnCount : Nat
  chunkCount : Nat
deriving Repr, DecidableEq

/-- Comparison operator of a pushed-down qualifier of the form
    `column OP literal` (spec section 4.3). -/
inductive CompOp where
  | lt
  | le
  | gt
  | ge
  | eq
deriving Repr, DecidableEq

/-- Pushed-down qualifier: column index, operator, literal. -/
structure Qual where
  col : Nat
  op : CompOp
  lit : Datum
deriving Repr, DecidableEq

/-- Evaluation of a comparison operator on a column value and the literal. -/
def evalCompOp : CompOp → Datum → Datum → Bool
  | .lt, v, l => decide (v < l)
  | .le, v, l => decide (v ≤ l)
  | .gt, v, l => decide (l < v)
  | .ge, v, l => decide (l ≤ v)
  | .eq, v, l => decide (v = l)

/-- Row-level satisfaction of a qualifier: the row's value in the qualifier's
    column must be non-null and satisfy the comparison (SQL comparison with a
    NULL is never true). -/
def rowSatisfiesQual (q : Qual) (r : Row) : Bool :=
  match r.getD q.col none with
  | some v => evalCompOp q.op v q.lit
  | none => false

/-- Consistency of a recorded skip node with the chunk group it describes:
    whenever `hasMinMax` is set, every non-null value of the qualifier's
    column in the chunk group lies in `[minimumValue, maximumValue]` (spec
    section 4.1: min/max are computed over the non-null values at flush
    time). -/
def skipNodeMatchesChunk (node : ColumnChunkSkipNode) (col : Nat)
    (rows : List Row) : Bool :=
  !node.hasMinMax ||
    rows.all fun r =>
      match r.getD col none with
      | some v => decide (node.minimumValue ≤ v) && decide (v ≤ node.maximumValue)
      | none => true

/-- Modelled from the spec: the pruning predicate of the skip list (spec
    section 4.3, implementation not in src): a chunk group is prunable for a
    qualifier iff the column's type supports ordering, `hasMinMax` is true,
    and the literal's relation to `[minimumValue, maximumValue]` proves the
    predicate cannot match any row in range. -/
def CanPruneChunk (orderable : Bool) (node : ColumnChunkSkipNode) (q : Qual) : Bool :=
  orderable && node.hasMinMax &&
    match q.op with
    | .gt => decide (node.maximumValue ≤ q.lit)
    | .ge => decide (node.maximumValue < q.lit)
    | .lt => decide (q.lit ≤ node.minimumValue)
    | .le => decide (q.lit < node.minimumValue)
    | .eq => decide (q.lit < node.minimumValue) || decide (node.maximumValue < q.lit)

/-- C2: pruning is sound: whenever the recorded skip node is consistent with
    its chunk group, a pruned chunk group contains no row satisfying the
    qualifier; and a skip node with `hasMinMax = false` never prunes, for any
    qualifier and any orderability. -/
theorem chunk_pruning_sound (orderable : Bool) (node : ColumnChunkSkipNode)
    (rows : List Row) (q : Qual)
    (hstat : skipNodeMatchesChunk node q.col rows = true) :
    (CanPruneChunk orderable node q = true →
      ∀ r ∈ rows, rowSatisfiesQual q r = false) ∧
    (node.hasMinMax = false → CanPruneChunk orderable node q = false) := by
  constructor
  · intro hp r hr
    have hmm : node.hasMinMax = true := by
      unfold CanPruneChunk at hp
      rcases Bool.and_eq_true_iff.mp hp with ⟨h1, -⟩
      exact (Bool.and_eq_true_iff.mp h1).2
    have hall : ∀ r' ∈ rows,
        (match r'.getD q.col none with
          | some v => decide (node.minimumValue ≤ v) && decide (v ≤ node.maximumValue)
          | none => true) = true := by
      unfold skipNodeMatchesChunk at hstat
      rw [hmm] at hstat
      simp only [Bool.not_true, Bool.false_or, List.all_eq_true] at hstat
      exact hstat
    have hrow := hall r hr
    unfold rowSatisfiesQual
    cases hv : r.getD q.col none with
    | none => rfl
    | some v =>
      rw [hv] at hrow
      have hbound : node.minimumValue ≤ v ∧ v ≤ node.maximumValue := by
        rcases Bool.and_eq_true_iff.mp hrow with ⟨hb1, hb2⟩
        exact ⟨of_decide_eq_true hb1, of_decide_eq_true hb2⟩
      have hcond := (Bool.and_eq_true_iff.mp hp).2
      obtain ⟨hb1, hb2⟩ := hbound
      obtain ⟨qcol, qop, qlit⟩ := q
      cases qop <;>
        simp only [evalCompOp, CanPruneChunk, decide_eq_true_eq, decide_eq_false_iff_not,
          Bool.or_eq_true] at hcond ⊢
      · intro hx
        linarith
      · intro hx
        linarith
      · intro hx
        linarith
      · intro hx
        linarith
      · intro hx
        subst hx
        rcases hcond with hc | hc <;> linarith
  · intro hmm
    unfold CanPruneChunk
    rw [hmm]
    simp

/-- Witness for C2: a chunk group with recorded min 1 / max 5 is pruned for
    the qualifier `col > 5` and indeed no row satisfies it; a node without
    min/max statistics never prunes. -/
theorem chunk_pruning_sound_witness :
    (∀ r ∈ ([[some 2], [some 5], [none]] : List Row),
      rowSatisfiesQual ⟨0, .gt, 5⟩ r = false) ∧
    CanPruneChunk true ⟨false, 0, 0, 3, 0, 0, 0, 0, 0, .noCompression, 1⟩
      ⟨0, .lt, 7⟩ = false :=
  ⟨(chunk_pruning_sound true ⟨true, 1, 5, 3, 0, 0, 0, 0, 0, .lz4, 1⟩
      [[some 2], [some 5], [none]] ⟨0, .gt, 5⟩ (by decide)).1 (by decide),
   (chunk_pruning_sound true ⟨false, 0, 0, 3, 0, 0, 0, 0, 0, .noCompression, 1⟩
      [[some 2]] ⟨0, .lt, 7⟩ (by decide)).2 rfl⟩

/-- Status of the transaction that reserved a stripe, as observable when a
    reader consults transaction status (spec sections 3 and 9: a crashed
    backend's transaction is observed as aborted, so no separate crashed
    state exists at read time). -/
inductive WriterTxnStatus where
  | running
  | committed
  | aborted
deriving Repr, DecidableEq

/-- Return value of StripeWriteState to decide stripe write state
    (columnar.h lines 192-209). -/
inductive StripeWriteStateEnum where
  | STRIPE_WRITE_FLUSHED
  | STRIPE_WRITE_ABORTED
  | STRIPE_WRITE_IN_PROGRESS
deriving Repr, DecidableEq

/-- Durable footprint of one stripe: its id, the first row number of its
    reserved range, its chunk groups (the rows actually written), whether
    `CompleteStripeReservation` ran (the final step of a successful flush),
    and the observable status of the writing transaction. -/
structure StripeRec where
  stripeId : Nat
  firstRowNumber : Nat
  chunkGroups : List (List Row)
  completed : Bool
  writerTxn : WriterTxnStatus
deriving Repr, DecidableEq

/-- Modelled from the spec: `StripeWriteState` (declared columnar.h line 369)
    derives the stripe's write state from the completion flag and the writer
    transaction's outcome rather than from a stored flag: an in-progress
    writer gives IN_PROGRESS, an aborted (or crashed) writer gives ABORTED,
    and a committed writer gives FLUSHED only when completion ran (a reserved
    but never completed stripe is treated as aborted). -/
def StripeWriteState (s : StripeRec) : StripeWriteStateEnum :=
  match s.writerTxn with
  | .running => .STRIPE_WRITE_IN_PROGRESS
  | .aborted => .STRIPE_WRITE_ABORTED
  | .committed =>
      if s.completed then .STRIPE_WRITE_FLUSHED else .STRIPE_WRITE_ABORTED

/-- Rows of a stripe in row-number order (its chunk groups concatenated). -/
def stripeRows (s : StripeRec) : List Row :=
  s.chunkGroups.flatten

/-- Pairing of consecutive row numbers (starting at `n`) with a row list. -/
def numberRowsFrom (n : Nat) : List Row → List (Nat × Row)
  | [] => []
  | r :: rs => (n, r) :: numberRowsFrom (n + 1) rs

/-- Row-level conjunction of all pushed-down qualifiers. -/
def rowSatisfiesAllQuals (quals : List Qual) (r : Row) : Bool :=
  quals.all fun q => rowSatisfiesQual q r

/-- One stripe's contribution to a sequential scan: its rows numbered from
    `firstRowNumber`, with deleted (row-mask) rows and rows failing a
    qualifier filtered out. -/
def scanStripe (quals : List Qual) (deleted : Nat → Bool) (s : StripeRec) :
    List (Nat × Row) :=
  (numberRowsFrom s.firstRowNumber (stripeRows s)).filter fun p =>
    !deleted p.1 && rowSatisfiesAllQuals quals p.2

/-- Modelled from the spec: the row sequence produced by repeatedly calling
    `ColumnarReadNextRow` (declared columnar.h lines 299-300) until
    exhaustion: stripes are visited in physical order, stripes whose derived
    write state is not FLUSHED are skipped entirely, and each visible
    stripe's rows are yielded in row-number order after row-mask and
    qualifier filtering.  `deleted` is the stripe-range row mask merged with
    the transaction's own pending deletes. -/
def ColumnarSequentialScan (stripes : List StripeRec) (quals : List Qual)
    (deleted : Nat → Bool) : List (Nat × Row) :=
  (stripes.filter fun s =>
      decide (StripeWriteState s = .STRIPE_WRITE_FLUSHED)).flatMap
    (scanStripe quals deleted)

/-- In-memory state of a columnar write operation (`ColumnarWriteState`,
    opaque in columnar.h line 234).  Modelled from the spec: it buffers the
    current unfinalized chunk group, the finalized chunk groups of the
    stripe being built, and the stripes flushed so far; `nextRowNumber` is
    the row number the next appended row receives (row numbers are assigned
    at buffer-append time and start at 0 for a fresh storage). -/
structure ColumnarWriteState where
  options : ColumnarOptions
  nextRowNumber : Nat
  curGroup : List Row
  finishedGroups : List (List Row)
  stripes : List StripeRec
  nextStripeId : Nat
deriving Repr, DecidableEq

/-- Buffered-but-unflushed rows of a write state, in append order. -/
def pendingRows (s : ColumnarWriteState) : List Row :=
  s.finishedGroups.flatten ++ s.curGroup

/-- Modelled from the spec: `ContainsPendingWrites` (declared columnar.h line
    280) is true iff any buffered, unflushed row data exists. -/
def ContainsPendingWrites (s : ColumnarWriteState) : Bool :=
  !(pendingRows s).isEmpty

/-- Modelled from the spec: `ColumnarBeginWrite` (declared columnar.h lines
    273-275) allocates no stripe yet; buffers are empty. -/
def ColumnarBeginWrite (options : ColumnarOptions) : ColumnarWriteState :=
  { options := options
    nextRowNumber := 0
    curGroup := []
    finishedGroups := []
    stripes := []
    nextStripeId := 0 }

/-- Modelled from the spec: `ColumnarFlushPendingWrites` (declared columnar.h
    line 278) finalizes any partial chunk group, reserves a stripe slot (row
    number range and id), writes the chunk buffers and marks the stripe
    complete as the final step; a flush with nothing buffered is a no-op. -/
def finalizedGroups (s : ColumnarWriteState) : List (List Row) :=
  s.finishedGroups ++ (if s.curGroup.isEmpty then [] else [s.curGroup])

def ColumnarFlushPendingWrites (s : ColumnarWriteState) : ColumnarWriteState :=
  if (finalizedGroups s).isEmpty then s
  else
    { s with
      curGroup := []
      finishedGroups := []
      stripes := s.stripes ++
        [{ stripeId := s.nextStripeId
           firstRowNumber := s.nextRowNumber - (finalizedGroups s).flatten.length
           chunkGroups := finalizedGroups s
           completed := true
           writerTxn := .committed }]
      nextStripeId := s.nextStripeId + 1 }

/-- Modelled from the spec: `ColumnarWriteRow` (declared columnar.h lines
    276-277) appends one row to the current chunk group, finalizes the chunk
    group when it reaches `chunkRowCount`, flushes the stripe when the
    accumulated chunk groups reach `stripeRowCount`, and returns the newly
    assigned row number. -/
def ColumnarWriteRow (s : ColumnarWriteState) (columnValues : Row) :
    Nat × ColumnarWriteState :=
  let n := s.nextRowNumber
  let grown := s.curGroup ++ [columnValues]
  let s' :=
    if s.options.chunkRowCount ≤ grown.length then
      { s with
        nextRowNumber := n + 1
        curGroup := []
        finishedGroups := s.finishedGroups ++ [grown] }
    else
      { s with nextRowNumber := n + 1, curGroup := grown }
  if s.options.stripeRowCount ≤ (pendingRows s').length then
    (n, ColumnarFlushPendingWrites s')
  else
    (n, s')

/-- Modelled from the spec: `ColumnarEndWrite` (declared columnar.h line 279)
    flushes remaining buffered rows, if any, and releases engine resources
    (a no-op on the durable state if nothing is pending). -/
def ColumnarEndWrite (s : ColumnarWriteState) : ColumnarWriteState :=
  ColumnarFlushPendingWrites s

/-- Appending a sequence of rows through `ColumnarWriteRow`. -/
def writeRows (s : ColumnarWriteState) (rows : List Row) : ColumnarWriteState :=
  rows.foldl (fun st r => (ColumnarWriteRow st r).2) s

/-- Rows stored in a list of stripes, in stripe order. -/
def tableRows (stripes : List StripeRec) : List Row :=
  stripes.flatMap stripeRows

lemma numberRowsFrom_append (l₁ l₂ : List Row) (n : Nat) :
    numberRowsFrom n (l₁ ++ l₂) =
      numberRowsFrom n l₁ ++ numberRowsFrom (n + l₁.length) l₂ := by
  induction l₁ generalizing n with
  | nil => simp [numberRowsFrom]
  | cons r rs ih =>
    have e1 : numberRowsFrom n ((r :: rs) ++ l₂) =
        (n, r) :: numberRowsFrom (n + 1) (rs ++ l₂) := rfl
    have e2 : numberRowsFrom n (r :: rs) = (n, r) :: numberRowsFrom (n + 1) rs := rfl
    have e3 : n + 1 + rs.length = n + (rs.length + 1) := by omega
    rw [e1, e2, ih (n + 1), e3, List.length_cons, List.cons_append]

lemma scanStripe_no_filter (s : StripeRec) :
    scanStripe [] (fun _ => false) s =
      numberRowsFrom s.firstRowNumber (stripeRows s) := by
  unfold scanStripe
  apply List.filter_eq_self.mpr
  intro p _
  simp [rowSatisfiesAllQuals]

lemma scan_append (a b : List StripeRec) (quals : List Qual) (deleted : Nat → Bool) :
    ColumnarSequentialScan (a ++ b) quals deleted =
      ColumnarSequentialScan a quals deleted ++ ColumnarSequentialScan b quals deleted := by
  unfold ColumnarSequentialScan
  rw [List.filter_append, List.flatMap_append]

lemma scan_flushed_singleton (st : StripeRec)
    (hst : StripeWriteState st = .STRIPE_WRITE_FLUSHED) (quals : List Qual)
    (deleted : Nat → Bool) :
    ColumnarSequentialScan [st] quals deleted = scanStripe quals deleted st := by
  simp [ColumnarSequentialScan, hst]

lemma finalizedGroups_flatten (s : ColumnarWriteState) :
    (finalizedGroups s).flatten = pendingRows s := by
  unfold finalizedGroups pendingRows
  cases hcg : s.curGroup with
  | nil => simp [hcg]
  | cons a l => simp [hcg, List.flatten_append]

/-- Well-formedness of a write state after the rows `written` have been
    appended to a fresh engine: the next row number counts all rows written,
    the rows split into flushed table content plus pending buffer, and the
    flushed content scans back in row-number order. -/
def WriterWf (s : ColumnarWriteState) (written : List Row) : Prop :=
  s.nextRowNumber = written.length ∧
  written = tableRows s.stripes ++ pendingRows s ∧
  ColumnarSequentialScan s.stripes [] (fun _ => false) =
    numberRowsFrom 0 (tableRows s.stripes)

lemma flush_wf (s : ColumnarWriteState) (written : List Row)
    (h : WriterWf s written) :
    WriterWf (ColumnarFlushPendingWrites s) written ∧
    tableRows (ColumnarFlushPendingWrites s).stripes = written := by
  obtain ⟨hn, hw, hscan⟩ := h
  unfold ColumnarFlushPendingWrites
  split_ifs with hge
  · -- nothing buffered: flush is a no-op and written is fully flushed
    have hnil : finalizedGroups s = [] := by
      cases hfg : finalizedGroups s with
      | nil => rfl
      | cons a l => rw [hfg] at hge; simp at hge
    have hpend : pendingRows s = [] := by
      rw [← finalizedGroups_flatten s, hnil]
      rfl
    refine ⟨⟨hn, hw, hscan⟩, ?_⟩
    rw [hw, hpend, List.append_nil]
  · -- a stripe is appended holding exactly the pending rows
    have hflat := finalizedGroups_flatten s
    set st : StripeRec :=
      { stripeId := s.nextStripeId
        firstRowNumber := s.nextRowNumber - (finalizedGroups s).flatten.length
        chunkGroups := finalizedGroups s
        completed := true
        writerTxn := .committed } with hst
    have hrows : stripeRows st = pendingRows s := by
      rw [hst]
      simpa [stripeRows] using hflat
    have hlen : written.length = (tableRows s.stripes).length + (pendingRows s).length := by
      rw [hw, List.length_append]
    have hfirst : st.firstRowNumber = (tableRows s.stripes).length := by
      have h1 : st.firstRowNumber = s.nextRowNumber - (pendingRows s).length := by
        rw [hst]
        simp [hflat]
      rw [h1, hn]
      omega
    have hflush : StripeWriteState st = .STRIPE_WRITE_FLUSHED := by
      rw [hst]
      rfl
    have hsplit : tableRows (s.stripes ++ [st]) = tableRows s.stripes ++ stripeRows st := by
      simp [tableRows]
    have htable : tableRows (s.stripes ++ [st]) = written := by
      rw [hsplit, hrows, ← hw]
    have hscan2 : ColumnarSequentialScan (s.stripes ++ [st]) [] (fun _ => false) =
        numberRowsFrom 0 (tableRows (s.stripes ++ [st])) := by
      rw [scan_append, hscan, scan_flushed_singleton st hflush, scanStripe_no_filter,
        hrows, hfirst]
      have h2 : tableRows (s.stripes ++ [st]) = tableRows s.stripes ++ pendingRows s := by
        rw [hsplit, hrows]
      rw [h2, numberRowsFrom_append, Nat.zero_add]
    exact ⟨⟨hn, by simpa [pendingRows] using htable.symm, hscan2⟩, htable⟩

lemma writeRow_wf (s : ColumnarWriteState) (written : List Row) (r : Row)
    (h : WriterWf s written) :
    WriterWf (ColumnarWriteRow s r).2 (written ++ [r]) ∧
    (ColumnarWriteRow s r).1 = written.length := by
  obtain ⟨hn, hw, hscan⟩ := h
  have key : ∀ s₂ : ColumnarWriteState,
      s₂.nextRowNumber = s.nextRowNumber + 1 →
      pendingRows s₂ = pendingRows s ++ [r] →
      s₂.stripes = s.stripes →
      WriterWf s₂ (written ++ [r]) := by
    intro s₂ h1 h2 h3
    refine ⟨by simp [h1, hn], ?_, ?_⟩
    · rw [h2, h3, ← List.append_assoc, ← hw]
    · rw [h3]
      exact hscan
  have keyA : WriterWf
      { s with
        nextRowNumber := s.nextRowNumber + 1
        curGroup := []
        finishedGroups := s.finishedGroups ++ [s.curGroup ++ [r]] }
      (written ++ [r]) := by
    apply key
    · rfl
    · simp [pendingRows, List.flatten_append, List.append_assoc]
    · rfl
  have keyB : WriterWf
      { s with nextRowNumber := s.nextRowNumber + 1, curGroup := s.curGroup ++ [r] }
      (written ++ [r]) := by
    apply key
    · rfl
    · simp [pendingRows, List.append_assoc]
    · rfl
  simp only [ColumnarWriteRow]
  split_ifs with hc hs hs2
  · exact ⟨(flush_wf _ _ keyA).1, hn⟩
  · exact ⟨keyA, hn⟩
  · exact ⟨(flush_wf _ _ keyB).1, hn⟩
  · exact ⟨keyB, hn⟩

lemma writeRows_wf (rows : List Row) (s : ColumnarWriteState) (written : List Row)
    (h : WriterWf s written) :
    WriterWf (writeRows s rows) (written ++ rows) := by
  induction rows generalizing s written with
  | nil => simpa [writeRows] using h
  | cons r rs ih =>
    have h1 := (writeRow_wf s written r h).1
    have h2 := ih _ _ h1
    simpa [writeRows, List.append_assoc] using h2

/-- C1: round-trip: for any sequence of rows appended through
    `ColumnarWriteRow` and flushed by `ColumnarEndWrite` (which runs
    `ColumnarFlushPendingWrites`), a sequential scan with an empty qualifier
    list and an empty row mask returns exactly those rows, paired with the
    consecutive ascending row numbers assigned at write time, with values and
    null flags identical to those written. -/
theorem columnar_write_read_round_trip (options : ColumnarOptions) (rows : List Row) :
    ColumnarSequentialScan
      (ColumnarEndWrite (writeRows (ColumnarBeginWrite options) rows)).stripes
      [] (fun _ => false) = numberRowsFrom 0 rows := by
  have h0 : WriterWf (ColumnarBeginWrite options) [] := ⟨rfl, rfl, rfl⟩
  have h1 : WriterWf (writeRows (ColumnarBeginWrite options) rows) rows := by
    simpa using writeRows_wf rows (ColumnarBeginWrite options) [] h0
  obtain ⟨hwf, htable⟩ := flush_wf _ _ h1
  obtain ⟨-, -, hscan⟩ := hwf
  unfold ColumnarEndWrite
  rw [hscan, htable]

/-- C3: a sequential scan over a table containing a stripe whose derived
    write state is ABORTED (writer aborted, or reserved by a crashed writer
    whose transaction is observed as aborted) or IN_PROGRESS returns exactly
    the result of scanning the table with that stripe absent, for every
    qualifier list and row mask; such stripes are never returned as data. -/
theorem aborted_stripe_invisible (pre post : List StripeRec) (s : StripeRec)
    (h : StripeWriteState s = .STRIPE_WRITE_ABORTED ∨
      StripeWriteState s = .STRIPE_WRITE_IN_PROGRESS)
    (quals : List Qual) (deleted : Nat → Bool) :
    ColumnarSequentialScan (pre ++ s :: post) quals deleted =
      ColumnarSequentialScan (pre ++ post) quals deleted := by
  have hnot : decide (StripeWriteState s = .STRIPE_WRITE_FLUSHED) = false := by
    rcases h with h | h <;> rw [h] <;> rfl
  unfold ColumnarSequentialScan
  rw [List.filter_append, List.filter_append, List.filter_cons, hnot]
  simp

/-- Witness for C3: a table of one flushed stripe plus one crashed
    in-progress reservation (writer transaction observed aborted, stripe never
    completed) scans identically to the table without the bad stripe. -/
theorem aborted_stripe_invisible_witness :
    ColumnarSequentialScan
      ([⟨0, 0, [[[some 1], [some 2]]], true, .committed⟩] ++
        ⟨1, 2, [[[some 7]]], false, .aborted⟩ :: []) [] (fun _ => false) =
      ColumnarSequentialScan [⟨0, 0, [[[some 1], [some 2]]], true, .committed⟩]
        [] (fun _ => false) :=
  aborted_stripe_invisible [⟨0, 0, [[[some 1], [some 2]]], true, .committed⟩] []
    ⟨1, 2, [[[some 7]]], false, .aborted⟩ (by decide) [] (fun _ => false)

/-- Modelled from the spec: `FindStripeByRowNumber` (declared columnar.h
    lines 360-361) resolves a row number to its owning stripe by searching
    the stripe metadata row-number intervals, restricted to stripes whose
    derived write state is FLUSHED under the scan snapshot. -/
def FindStripeByRowNumber (stripes : List StripeRec) (rowNumber : Nat) :
    Option StripeRec :=
  stripes.find? fun s =>
    decide (StripeWriteState s = .STRIPE_WRITE_FLUSHED) &&
      decide (s.firstRowNumber ≤ rowNumber) &&
      decide (rowNumber < s.firstRowNumber + (stripeRows s).length)

/-- Modelled from the spec: `ColumnarReadRowByRowNumber` (declared columnar.h
    lines 311-313) resolves the row number to its owning stripe, applies the
    row mask, and returns the single row, or a not-found outcome (`none`,
    the C interface's false return) when no flushed stripe owns the row
    number or the row is invisible. -/
def ColumnarReadRowByRowNumber (stripes : List StripeRec) (deleted : Nat → Bool)
    (rowNumber : Nat) : Option Row :=
  match FindStripeByRowNumber stripes rowNumber with
  | none => none
  | some s =>
      if deleted rowNumber then none
      else (stripeRows s).get? (rowNumber - s.firstRowNumber)

/-- Modelled from the spec: `ColumnarReadRowByRowNumberOrError` (declared
    columnar.h lines 308-310) performs the same lookup but treats the
    not-found outcome as a hard error. -/
def ColumnarReadRowByRowNumberOrError (stripes : List StripeRec)
    (deleted : Nat → Bool) (rowNumber : Nat) : Except String Row :=
  match ColumnarReadRowByRowNumber stripes deleted rowNumber with
  | some r => .ok r
  | none => .error "columnar row with row number not found"

/-- C6: when no flushed stripe owns the row number, or the row is masked
    invisible, the plain variant returns the not-found outcome without
    raising an error while the OrError variant raises a hard error; and on
    any row number where the plain variant finds a row, both variants return
    that identical row. -/
theorem read_row_by_number_variants (stripes : List StripeRec)
    (deleted : Nat → Bool) (rowNumber : Nat) :
    (FindStripeByRowNumber stripes rowNumber = none →
      ColumnarReadRowByRowNumber stripes deleted rowNumber = none) ∧
    (deleted rowNumber = true →
      ColumnarReadRowByRowNumber stripes deleted rowNumber = none) ∧
    (ColumnarReadRowByRowNumber stripes deleted rowNumber = none →
      ColumnarReadRowByRowNumberOrError stripes deleted rowNumber =
        .error "columnar row with row number not found") ∧
    (∀ r, ColumnarReadRowByRowNumber stripes deleted rowNumber = some r →
      ColumnarReadRowByRowNumberOrError stripes deleted rowNumber = .ok r) := by
  refine ⟨?_, ?_, ?_, ?_⟩
  · intro hfind
    unfold ColumnarReadRowByRowNumber
    rw [hfind]
  · intro hdel
    unfold ColumnarReadRowByRowNumber
    cases FindStripeByRowNumber stripes rowNumber with
    | none => rfl
    | some s => simp [hdel]
  · intro hnone
    unfold ColumnarReadRowByRowNumberOrError
    rw [hnone]
  · intro r hr
    unfold ColumnarReadRowByRowNumberOrError
    rw [hr]

/-- Witness for C6: on a one-stripe table, row number 5 is owned by no
    stripe (plain lookup returns none, OrError errors) and row number 0 is
    visible (both variants return the stored row). -/
theorem read_row_by_number_variants_witness :
    ColumnarReadRowByRowNumber [⟨0, 0, [[[some 1], [some 2]]], true, .committed⟩]
      (fun _ => false) 5 = none ∧
    ColumnarReadRowByRowNumberOrError [⟨0, 0, [[[some 1], [some 2]]], true, .committed⟩]
      (fun _ => false) 5 = .error "columnar row with row number not found" ∧
    ColumnarReadRowByRowNumberOrError [⟨0, 0, [[[some 1], [some 2]]], true, .committed⟩]
      (fun _ => false) 0 = .ok [some 1] :=
  ⟨(read_row_by_number_variants [⟨0, 0, [[[some 1], [some 2]]], true, .committed⟩]
      (fun _ => false) 5).1 (by decide),
   (read_row_by_number_variants [⟨0, 0, [[[some 1], [some 2]]], true, .committed⟩]
      (fun _ => false) 5).2.2.1 (by decide),
   (read_row_by_number_variants [⟨0, 0, [[[some 1], [some 2]]], true, .committed⟩]
      (fun _ => false) 0).2.2.2 [some 1] (by decide)⟩

/-- In-memory chunk cache: decoded chunk-group payloads keyed by
    (stripe id, chunk group id).  The storage id component of the real key
    (columnar.h lines 447-449 key cache entries by storage id, stripe id and
    chunk group id) is fixed because the model describes a single relation;
    stripe and chunk ids are never reused, which is all the keying relies
    on. -/
abbrev ChunkCache := List ((Nat × Nat) × List Row)

/-- Modelled from the spec: `ColumnarRetrieveCache` (declared columnar.h line
    449) returns the decoded payload cached under the key, or a miss. -/
def ColumnarRetrieveCache (cache : ChunkCache) (key : Nat × Nat) :
    Option (List Row) :=
  (cache.find? fun e => e.1 == key).map fun e => e.2

/-- Modelled from the spec: `ColumnarAddCacheEntry` (declared columnar.h line
    448) stores a decoded payload under the key.  Eviction only removes
    entries and therefore cannot affect the coherence argument; the model
    keeps every entry. -/
def ColumnarAddCacheEntry (cache : ChunkCache) (key : Nat × Nat)
    (payload : List Row) : ChunkCache :=
  (key, payload) :: cache

/-- Decoding a chunk group directly from storage: locate the stripe by id
    and take the addressed chunk group.  Stripes are immutable once flushed,
    so this is a pure function of the table. -/
def decodeChunk (table : List StripeRec) (sid cid : Nat) : Option (List Row) :=
  match table.find? fun t => t.stripeId == sid with
  | none => none
  | some t => t.chunkGroups.get? cid

/-- Reading one chunk group through the cache: serve a hit directly, decode
    and populate on a miss. -/
def readChunkWithCache (table : List StripeRec) (cache : ChunkCache)
    (sid cid : Nat) : List Row × ChunkCache :=
  match ColumnarRetrieveCache cache (sid, cid) with
  | some payload => (payload, cache)
  | none =>
      match decodeChunk table sid cid with
      | some payload => (payload, ColumnarAddCacheEntry cache (sid, cid) payload)
      | none => ([], cache)

/-- Reading a consecutive run of chunk groups of one stripe through the
    cache, threading the cache. -/
def readGroupsWithCache (table : List StripeRec) (sid : Nat) :
    List (List Row) → Nat → ChunkCache → List Row × ChunkCache
  | [], _, cache => ([], cache)
  | _ :: rest, idx, cache =>
      let hd := readChunkWithCache table cache sid idx
      let tl := readGroupsWithCache table sid rest (idx + 1) hd.2
      (hd.1 ++ tl.1, tl.2)

/-- One stripe's contribution to a cached sequential scan: its chunk groups
    are obtained through the cache, then numbered and filtered exactly as in
    the uncached path. -/
def scanStripeWithCache (table : List StripeRec) (quals : List Qual)
    (deleted : Nat → Bool) (cache : ChunkCache) (s : StripeRec) :
    List (Nat × Row) × ChunkCache :=
  let rd := readGroupsWithCache table s.stripeId s.chunkGroups 0 cache
  ((numberRowsFrom s.firstRowNumber rd.1).filter fun p =>
      !deleted p.1 && rowSatisfiesAllQuals quals p.2, rd.2)

/-- Cached scan over a stripe list, threading the cache left to right. -/
def scanStripesWithCache (table : List StripeRec) (quals : List Qual)
    (deleted : Nat → Bool) : List StripeRec → ChunkCache →
    List (Nat × Row) × ChunkCache
  | [], cache => ([], cache)
  | s :: rest, cache =>
      let hd := scanStripeWithCache table quals deleted cache s
      let tl := scanStripesWithCache table quals deleted rest hd.2
      (hd.1 ++ tl.1, tl.2)

/-- Modelled from the spec: the sequential scan with the chunk cache enabled
    (`columnar_enable_page_cache`, columnar.h line 261): identical to
    `ColumnarSequentialScan` except that chunk groups are decoded through
    `ColumnarRetrieveCache`/`ColumnarAddCacheEntry`. -/
def ColumnarSequentialScanCached (table : List StripeRec) (cache : ChunkCache)
    (quals : List Qual) (deleted : Nat → Bool) :
    List (Nat × Row) × ChunkCache :=
  scanStripesWithCache table quals deleted
    (table.filter fun s => decide (StripeWriteState s = .STRIPE_WRITE_FLUSHED)) cache

/-- Events a table lives through: stripe creation (a flush making a new,
    never-reused stripe id durable), row-mask updates, and scans. -/
inductive TableEvent where
  | addStripe (s : StripeRec)
  | deleteRow (n : Nat)
  | scan (quals : List Qual)

/-- Stripe creation never mutates an existing stripe in place: an id already
    present leaves the table unchanged. -/
def addStripeUnique (table : List StripeRec) (s : StripeRec) : List StripeRec :=
  if table.any fun t => t.stripeId == s.stripeId then table else table ++ [s]

/-- Outputs of all scans in an event sequence, with the chunk cache enabled
    and threaded across events (repeated scans reuse entries populated by
    earlier scans; stripe creation and row-mask updates interleave). -/
def runScansWithCache : List TableEvent → List StripeRec → List Nat →
    ChunkCache → List (List (Nat × Row))
  | [], _, _, _ => []
  | .addStripe s :: evs, table, dels, cache =>
      runScansWithCache evs (addStripeUnique table s) dels cache
  | .deleteRow n :: evs, table, dels, cache =>
      runScansWithCache evs table (n :: dels) cache
  | .scan quals :: evs, table, dels, cache =>
      let out := ColumnarSequentialScanCached table cache quals fun n => dels.contains n
      out.1 :: runScansWithCache evs table dels out.2

/-- Outputs of all scans in an event sequence with the cache disabled. -/
def runScansNoCache : List TableEvent → List StripeRec → List Nat →
    List (List (Nat × Row))
  | [], _, _ => []
  | .addStripe s :: evs, table, dels =>
      runScansNoCache evs (addStripeUnique table s) dels
  | .deleteRow n :: evs, table, dels =>
      runScansNoCache evs table (n :: dels)
  | .scan quals :: evs, table, dels =>
      ColumnarSequentialScan table quals (fun n => dels.contains n) ::
        runScansNoCache evs table dels

/-- Coherence of the chunk cache with the table: every cached payload is the
    decode of its key.  Key identity is immutable once a stripe is flushed,
    so this is the invariant the cache maintains. -/
def CacheCoherent (table : List StripeRec) (cache : ChunkCache) : Prop :=
  ∀ k p, ColumnarRetrieveCache cache k = some p →
    decodeChunk table k.1 k.2 = some p

lemma coherent_nil (table : List StripeRec) : CacheCoherent table [] := by
  intro k p h
  simp [ColumnarRetrieveCache] at h

lemma readChunkWithCache_spec (table : List StripeRec) (cache : ChunkCache)
    (sid cid : Nat) (hco : CacheCoherent table cache) :
    (readChunkWithCache table cache sid cid).1 = (decodeChunk table sid cid).getD [] ∧
    CacheCoherent table (readChunkWithCache table cache sid cid).2 := by
  unfold readChunkWithCache
  cases hl : ColumnarRetrieveCache cache (sid, cid) with
  | some payload =>
    have hd := hco (sid, cid) payload hl
    exact ⟨by simp [hd], hco⟩
  | none =>
    cases hdec : decodeChunk table sid cid with
    | some payload =>
      refine ⟨by simp [hdec], ?_⟩
      show CacheCoherent table (((sid, cid), payload) :: cache)
      intro k p hk
      unfold ColumnarRetrieveCache at hk
      by_cases hkey : (((sid, cid), payload) : (Nat × Nat) × List Row).1 == k
      · rw [List.find?_cons_of_pos cache hkey] at hk
        have hke : (sid, cid) = k := by
          have := of_decide_eq_true (by simpa using hkey)
          exact this
        have hpe : payload = p := by
          simpa using hk
        subst hke
        subst hpe
        simpa using hdec
      · rw [List.find?_cons_of_neg cache hkey] at hk
        exact hco k p hk
    | none => exact ⟨by simp [hdec], hco⟩

lemma readGroupsWithCache_spec (table : List StripeRec) (sid : Nat)
    (groups : List (List Row)) :
    ∀ (idx : Nat) (cache : ChunkCache), CacheCoherent table cache →
    (∀ i, decodeChunk table sid (idx + i) = groups.get? i) →
    (readGroupsWithCache table sid groups idx cache).1 = groups.flatten ∧
    CacheCoherent table (readGroupsWithCache table sid groups idx cache).2 := by
  induction groups with
  | nil =>
    intro idx cache hco _
    exact ⟨rfl, hco⟩
  | cons g rest ih =>
    intro idx cache hco hdec
    have h0 : decodeChunk table sid idx = some g := by
      have h := hdec 0
      simpa using h
    have hhd := readChunkWithCache_spec table cache sid idx hco
    have hrest : ∀ i, decodeChunk table sid (idx + 1 + i) = rest.get? i := by
      intro i
      have h := hdec (i + 1)
      have e : idx + (i + 1) = idx + 1 + i := by omega
      rw [e] at h
      simpa using h
    have htl := ih (idx + 1) (readChunkWithCache table cache sid idx).2 hhd.2 hrest
    refine ⟨?_, htl.2⟩
    show (readChunkWithCache table cache sid idx).1 ++
        (readGroupsWithCache table sid rest (idx + 1)
          (readChunkWithCache table cache sid idx).2).1 = (g :: rest).flatten
    rw [hhd.1, h0, htl.1]
    rfl

lemma find_by_id (table : List StripeRec)
    (hids : (table.map fun t => t.stripeId).Nodup)
    (s : StripeRec) (hs : s ∈ table) :
    table.find? (fun t => t.stripeId == s.stripeId) = some s := by
  induction table with
  | nil => cases hs
  | cons t rest ih =>
    rw [List.map_cons, List.nodup_cons] at hids
    rcases List.mem_cons.mp hs with rfl | hmem
    · exact List.find?_cons_of_pos _ (by simp)
    · have hne : (t.stripeId == s.stripeId) = false := by
        simp only [beq_eq_false_iff_ne, ne_eq]
        intro heq
        exact hids.1 (by rw [heq]; exact List.mem_map_of_mem _ hmem)
      rw [List.find?_cons_of_neg _ (by simp [hne])]
      exact ih hids.2 hmem

lemma decode_of_mem (table : List StripeRec)
    (hids : (table.map fun t => t.stripeId).Nodup)
    (s : StripeRec) (hs : s ∈ table) (cid : Nat) :
    decodeChunk table s.stripeId cid = s.chunkGroups.get? cid := by
  unfold decodeChunk
  rw [find_by_id table hids s hs]

lemma scanStripeWithCache_spec (table : List StripeRec) (quals : List Qual)
    (deleted : Nat → Bool) (cache : ChunkCache) (s : StripeRec)
    (hids : (table.map fun t => t.stripeId).Nodup) (hs : s ∈ table)
    (hco : CacheCoherent table cache) :
    (scanStripeWithCache table quals deleted cache s).1 = scanStripe quals deleted s ∧
    CacheCoherent table (scanStripeWithCache table quals deleted cache s).2 := by
  have hdec : ∀ i, decodeChunk table s.stripeId (0 + i) = s.chunkGroups.get? i := by
    intro i
    rw [Nat.zero_add]
    exact decode_of_mem table hids s hs i
  have h := readGroupsWithCache_spec table s.stripeId s.chunkGroups 0 cache hco hdec
  refine ⟨?_, h.2⟩
  show (numberRowsFrom s.firstRowNumber
      (readGroupsWithCache table s.stripeId s.chunkGroups 0 cache).1).filter _ = _
  rw [h.1]
  rfl

lemma scanStripesWithCache_spec (table : List StripeRec) (quals : List Qual)
    (deleted : Nat → Bool) (stripes : List StripeRec) :
    ∀ cache : ChunkCache, CacheCoherent table cache →
    (table.map fun t => t.stripeId).Nodup →
    (∀ s ∈ stripes, s ∈ table) →
    (scanStripesWithCache table quals deleted stripes cache).1 =
      stripes.flatMap (scanStripe quals deleted) ∧
    CacheCoherent table (scanStripesWithCache table quals deleted stripes cache).2 := by
  induction stripes with
  | nil =>
    intro cache hco _ _
    exact ⟨rfl, hco⟩
  | cons s rest ih =>
    intro cache hco hids hsub
    have hhd := scanStripeWithCache_spec table quals deleted cache s hids
      (hsub s (List.mem_cons_self s rest)) hco
    have htl := ih (scanStripeWithCache table quals deleted cache s).2 hhd.2 hids
      (fun t ht => hsub t (List.mem_cons_of_mem s ht))
    refine ⟨?_, htl.2⟩
    show (scanStripeWithCache table quals deleted cache s).1 ++
        (scanStripesWithCache table quals deleted rest
          (scanStripeWithCache table quals deleted cache s).2).1 = _
    rw [hhd.1, htl.1, List.flatMap_cons]

lemma scanCached_eq (table : List StripeRec) (cache : ChunkCache)
    (quals : List Qual) (deleted : Nat → Bool)
    (hids : (table.map fun t => t.stripeId).Nodup)
    (hco : CacheCoherent table cache) :
    (ColumnarSequentialScanCached table cache quals deleted).1 =
      ColumnarSequentialScan table quals deleted ∧
    CacheCoherent table (ColumnarSequentialScanCached table cache quals deleted).2 := by
  unfold ColumnarSequentialScanCached ColumnarSequentialScan
  exact scanStripesWithCache_spec table quals deleted _ cache hco hids
    (fun s hsm => (List.mem_filter.mp hsm).1)

lemma idsUnique_addStripe (table : List StripeRec) (s : StripeRec)
    (hids : (table.map fun t => t.stripeId).Nodup) :
    ((addStripeUnique table s).map fun t => t.stripeId).Nodup := by
  unfold addStripeUnique
  split_ifs with hany
  · exact hids
  · rw [List.map_append]
    rw [List.nodup_append]
    refine ⟨hids, by simp, ?_⟩
    intro x hx
    rcases List.mem_map.mp hx with ⟨t, ht, rfl⟩
    simp only [List.map_cons, List.map_nil, List.mem_singleton]
    intro heq
    exact hany (List.any_eq_true.mpr ⟨t, ht, by simp [heq]⟩)

lemma find?_append_of_some {α : Type} (p : α → Bool) (l₁ l₂ : List α) (a : α)
    (h : l₁.find? p = some a) : (l₁ ++ l₂).find? p = some a := by
  induction l₁ with
  | nil => simp [List.find?] at h
  | cons x xs ih =>
    by_cases hx : p x
    · rw [List.find?_cons_of_pos _ hx] at h
      rw [List.cons_append, List.find?_cons_of_pos _ hx]
      exact h
    · rw [List.find?_cons_of_neg _ hx] at h
      rw [List.cons_append, List.find?_cons_of_neg _ hx]
      exact ih h

lemma decode_addStripe (table : List StripeRec) (s : StripeRec) (sid cid : Nat)
    (p : List Row) (h : decodeChunk table sid cid = some p) :
    decodeChunk (addStripeUnique table s) sid cid = some p := by
  unfold addStripeUnique
  split_ifs
  · exact h
  · unfold decodeChunk at h ⊢
    cases hf : table.find? (fun t => t.stripeId == sid) with
    | none => rw [hf] at h; simp at h
    | some t =>
      rw [hf] at h
      rw [find?_append_of_some _ table [s] t hf]
      exact h

lemma coherent_addStripe (table : List StripeRec) (s : StripeRec)
    (cache : ChunkCache) (hco : CacheCoherent table cache) :
    CacheCoherent (addStripeUnique table s) cache :=
  fun k p hk => decode_addStripe table s k.1 k.2 p (hco k p hk)

lemma runScans_eq (events : List TableEvent) :
    ∀ (table : List StripeRec) (dels : List Nat) (cache : ChunkCache),
    (table.map fun t => t.stripeId).Nodup → CacheCoherent table cache →
    runScansWithCache events table dels cache = runScansNoCache events table dels := by
  induction events with
  | nil => intro _ _ _ _ _; rfl
  | cons ev evs ih =>
    intro table dels cache hids hco
    cases ev with
    | addStripe s =>
      exact ih (addStripeUnique table s) dels cache
        (idsUnique_addStripe table s hids) (coherent_addStripe table s cache hco)
    | deleteRow n => exact ih table (n :: dels) cache hids hco
    | scan quals =>
      have h := scanCached_eq table cache quals (fun n => dels.contains n) hids hco
      show (ColumnarSequentialScanCached table cache quals _).1 ::
          runScansWithCache evs table dels
            (ColumnarSequentialScanCached table cache quals _).2 = _
      rw [h.1, ih table dels _ hids h.2]
      rfl

/-- C7: cache transparency: over any sequence of stripe creations, row-mask
    updates and scans starting from an empty table, every scan result with
    the chunk cache enabled is identical to the result with the cache
    disabled; in particular the cache never serves stale data after a
    row-mask or stripe update, because entries are keyed by immutable
    (stripe id, chunk group id) identity and the row mask is applied after
    cache retrieval. -/
theorem cache_transparent (events : List TableEvent) :
    runScansWithCache events [] [] [] = runScansNoCache events [] [] :=
  runScans_eq events [] [] [] (by simp) (coherent_nil [])

/-- Parallel Custom Scan shared data (columnar.h lines 213-219): the mutex
    and snapshot payload have no observable effect on the claimed sequence,
    so the model keeps only the atomic next-stripe cursor the mutex
    protects. -/
structure ParallelColumnarScanData where
  nextStripeId : Nat
deriving Repr, DecidableEq

/-- Modelled from the spec: the cursor's only operation, an atomic
    fetch-and-increment under the mutex (spec sections 4.5 and 9): it
    returns the current cursor value and the advanced cursor. -/
def claimNext (st : ParallelColumnarScanData) : Nat × ParallelColumnarScanData :=
  (st.nextStripeId, ⟨st.nextStripeId + 1⟩)

/-- The stripes a scan may return: derived write state FLUSHED. -/
def flushedStripes (table : List StripeRec) : List StripeRec :=
  table.filter fun s => decide (StripeWriteState s = .STRIPE_WRITE_FLUSHED)

/-- One interleaved execution of N workers sharing the cursor: each schedule
    entry names the worker performing the next `claimNext`; a claim below
    `stripeCount` assigns that stripe to that worker, a worker seeing the
    cursor past the end stops claiming.  The result lists (stripe, worker)
    assignments in claim order. -/
def runParallelClaims (stripeCount : Nat) :
    List Nat → ParallelColumnarScanData → List (Nat × Nat)
  | [], _ => []
  | w :: ws, st =>
      let c := claimNext st
      if c.1 < stripeCount then (c.1, w) :: runParallelClaims stripeCount ws c.2
      else runParallelClaims stripeCount ws c.2

/-- Rows returned by one worker: it scans exactly the stripes it claimed,
    each with the ordinary per-stripe scan. -/
def parallelWorkerRows (stripes : List StripeRec) (quals : List Qual)
    (deleted : Nat → Bool) (claims : List (Nat × Nat)) (w : Nat) :
    List (Nat × Row) :=
  (claims.filter fun c => decide (c.2 = w)).flatMap fun c =>
    ((stripes.get? c.1).map (scanStripe quals deleted)).getD []

lemma runParallelClaims_fst (stripeCount : Nat) (schedule : List Nat) :
    ∀ c : Nat, (runParallelClaims stripeCount schedule ⟨c⟩).map Prod.fst =
      List.range' c (min (stripeCount - c) schedule.length) := by
  induction schedule with
  | nil => intro c; simp [runParallelClaims]
  | cons w ws ih =>
    intro c
    unfold runParallelClaims
    by_cases hc : c < stripeCount
    · rw [if_pos (by simpa [claimNext] using hc)]
      simp only [List.map_cons, claimNext]
      rw [ih (c + 1)]
      have h1 : min (stripeCount - c) (w :: ws).length =
          min (stripeCount - (c + 1)) ws.length + 1 := by
        simp only [List.length_cons]
        omega
      rw [h1]
      rfl
    · rw [if_neg (by simpa [claimNext] using hc)]
      simp only [claimNext]
      rw [ih (c + 1)]
      have h1 : min (stripeCount - c) (w :: ws).length = 0 := by
        simp only [List.length_cons]
        omega
      have h2 : min (stripeCount - (c + 1)) ws.length = 0 := by omega
      rw [h1, h2]
      rfl

lemma runParallelClaims_snd_mem (stripeCount : Nat) (schedule : List Nat) :
    ∀ (st : ParallelColumnarScanData) (c : Nat × Nat),
      c ∈ runParallelClaims stripeCount schedule st → c.2 ∈ schedule := by
  induction schedule with
  | nil => intro st c hc; cases hc
  | cons w ws ih =>
    intro st c hc
    unfold runParallelClaims at hc
    by_cases hlt : (claimNext st).1 < stripeCount
    · rw [if_pos hlt] at hc
      rcases List.mem_cons.mp hc with rfl | hmem
      · exact List.mem_cons_self w ws
      · exact List.mem_cons_of_mem w (ih _ c hmem)
    · rw [if_neg hlt] at hc
      exact List.mem_cons_of_mem w (ih _ c hc)

lemma flatMap_range_get (l : List StripeRec) (f : StripeRec → List (Nat × Row)) :
    (List.range l.length).flatMap (fun i => ((l.get? i).map f).getD []) =
      l.flatMap f := by
  induction l with
  | nil => rfl
  | cons a t ih =>
    rw [List.length_cons, List.range_succ_eq_map, List.flatMap_cons, List.flatMap_map]
    show f a ++ _ = f a ++ t.flatMap f
    congr 1

lemma sum_filter_claims (g : Nat → List (Nat × Row)) (W : Finset Nat) :
    ∀ claims : List (Nat × Nat), (∀ c ∈ claims, c.2 ∈ W) →
    (∑ w ∈ W, (((claims.filter fun c => decide (c.2 = w)).flatMap fun c => g c.1 :
        List (Nat × Row)) : Multiset (Nat × Row))) =
      ((claims.flatMap fun c => g c.1 : List (Nat × Row)) : Multiset (Nat × Row)) := by
  intro claims
  induction claims with
  | nil =>
    intro _
    simp
  | cons c cs ih =>
    intro hW
    have hc : c.2 ∈ W := hW c (List.mem_cons_self c cs)
    have ih2 := ih fun x hx => hW x (List.mem_cons_of_mem c hx)
    have hterm : ∀ w ∈ W,
        ((((c :: cs).filter fun x => decide (x.2 = w)).flatMap fun x => g x.1 :
          List (Nat × Row)) : Multiset (Nat × Row)) =
        (((cs.filter fun x => decide (x.2 = w)).flatMap fun x => g x.1 :
          List (Nat × Row)) : Multiset (Nat × Row)) +
          (if c.2 = w then ((g c.1 : List (Nat × Row)) : Multiset (Nat × Row)) else 0) := by
      intro w _
      by_cases hcw : c.2 = w
      · rw [List.filter_cons_of_pos (by simp [hcw]), List.flatMap_cons, if_pos hcw,
          Multiset.coe_add]
        exact Quotient.sound List.perm_append_comm
      · rw [List.filter_cons_of_neg (by simp [hcw]), if_neg hcw, add_zero]
    rw [Finset.sum_congr rfl hterm, Finset.sum_add_distrib, ih2,
      Finset.sum_ite_eq W c.2 fun _ => ((g c.1 : List (Nat × Row)) : Multiset (Nat × Row)),
      if_pos hc, List.flatMap_cons, Multiset.coe_add]
    exact Quotient.sound List.perm_append_comm

lemma flatMap_fst_claims (claims : List (Nat × Nat)) (g : Nat → List (Nat × Row)) :
    claims.flatMap (fun c => g c.1) = (claims.map Prod.fst).flatMap g := by
  induction claims with
  | nil => rfl
  | cons c cs ih => simp only [List.flatMap_cons, List.map_cons, ih]

/-- C9: parallel exclusivity: for any interleaving of workers sharing one
    parallel cursor that runs until every stripe is claimed (at least as many
    claim attempts as flushed stripes), the claimed stripe ids are exactly
    the stripe indices, each claimed once (no duplicates), and the multiset
    union of the rows returned by all workers equals the single-worker
    sequential scan result. -/
theorem parallel_scan_exclusive (table : List StripeRec) (quals : List Qual)
    (deleted : Nat → Bool) (schedule : List Nat)
    (hlen : (flushedStripes table).length ≤ schedule.length) :
    (runParallelClaims (flushedStripes table).length schedule ⟨0⟩).map Prod.fst =
      List.range (flushedStripes table).length ∧
    ((runParallelClaims (flushedStripes table).length schedule ⟨0⟩).map Prod.fst).Nodup ∧
    (∑ w ∈ schedule.toFinset,
      ((parallelWorkerRows (flushedStripes table) quals deleted
        (runParallelClaims (flushedStripes table).length schedule ⟨0⟩) w :
        List (Nat × Row)) : Multiset (Nat × Row))) =
      ((ColumnarSequentialScan table quals deleted : List (Nat × Row)) :
        Multiset (Nat × Row)) := by
  have hfst := runParallelClaims_fst (flushedStripes table).length schedule 0
  have hmin : min ((flushedStripes table).length - 0) schedule.length =
      (flushedStripes table).length := by omega
  rw [hmin] at hfst
  rw [show List.range' 0 (flushedStripes table).length =
      List.range (flushedStripes table).length from (List.range_eq_range' _).symm] at hfst
  refine ⟨hfst, by rw [hfst]; exact List.nodup_range _, ?_⟩
  have hmem : ∀ c ∈ runParallelClaims (flushedStripes table).length schedule ⟨0⟩,
      c.2 ∈ schedule.toFinset := fun c hcm =>
    List.mem_toFinset.mpr (runParallelClaims_snd_mem _ schedule ⟨0⟩ c hcm)
  have hsum := sum_filter_claims
    (fun i => (((flushedStripes table).get? i).map (scanStripe quals deleted)).getD [])
    schedule.toFinset (runParallelClaims (flushedStripes table).length schedule ⟨0⟩) hmem
  have hlist : (runParallelClaims (flushedStripes table).length schedule ⟨0⟩).flatMap
      (fun c => (((flushedStripes table).get? c.1).map (scanStripe quals deleted)).getD []) =
      ColumnarSequentialScan table quals deleted := by
    have h1 := flatMap_fst_claims
      (runParallelClaims (flushedStripes table).length schedule ⟨0⟩)
      (fun i => (((flushedStripes table).get? i).map (scanStripe quals deleted)).getD [])
    have h2 : ((runParallelClaims (flushedStripes table).length schedule ⟨0⟩).map
        Prod.fst).flatMap
        (fun i => (((flushedStripes table).get? i).map (scanStripe quals deleted)).getD []) =
        (flushedStripes table).flatMap (scanStripe quals deleted) := by
      rw [hfst]
      exact flatMap_range_get _ _
    exact h1.trans (h2.trans rfl)
  calc (∑ w ∈ schedule.toFinset,
        ((parallelWorkerRows (flushedStripes table) quals deleted
          (runParallelClaims (flushedStripes table).length schedule ⟨0⟩) w :
          List (Nat × Row)) : Multiset (Nat × Row)))
      = (((runParallelClaims (flushedStripes table).length schedule ⟨0⟩).flatMap
          fun c => (((flushedStripes table).get? c.1).map
            (scanStripe quals deleted)).getD [] : List (Nat × Row)) :
          Multiset (Nat × Row)) := hsum
    _ = ((ColumnarSequentialScan table quals deleted : List (Nat × Row)) :
          Multiset (Nat × Row)) := by rw [hlist]

/-- Witness for C9: two flushed stripes and one aborted stripe scanned by two
    workers under the schedule [0, 1, 0]. -/
theorem parallel_scan_exclusive_witness :
    (runParallelClaims (flushedStripes
        [⟨0, 0, [[[some 1]]], true, .committed⟩, ⟨1, 1, [[[some 2]]], true, .committed⟩,
         ⟨2, 2, [[[some 3]]], false, .aborted⟩]).length [0, 1, 0] ⟨0⟩).map Prod.fst =
      List.range (flushedStripes
        [⟨0, 0, [[[some 1]]], true, .committed⟩, ⟨1, 1, [[[some 2]]], true, .committed⟩,
         ⟨2, 2, [[[some 3]]], false, .aborted⟩]).length ∧
    ((runParallelClaims (flushedStripes
        [⟨0, 0, [[[some 1]]], true, .committed⟩, ⟨1, 1, [[[some 2]]], true, .committed⟩,
         ⟨2, 2, [[[some 3]]], false, .aborted⟩]).length [0, 1, 0] ⟨0⟩).map Prod.fst).Nodup ∧
    (∑ w ∈ ([0, 1, 0] : List Nat).toFinset,
      ((parallelWorkerRows (flushedStripes
          [⟨0, 0, [[[some 1]]], true, .committed⟩, ⟨1, 1, [[[some 2]]], true, .committed⟩,
           ⟨2, 2, [[[some 3]]], false, .aborted⟩]) [] (fun _ => false)
        (runParallelClaims (flushedStripes
          [⟨0, 0, [[[some 1]]], true, .committed⟩, ⟨1, 1, [[[some 2]]], true, .committed⟩,
           ⟨2, 2, [[[some 3]]], false, .aborted⟩]).length [0, 1, 0] ⟨0⟩) w :
        List (Nat × Row)) : Multiset (Nat × Row))) =
      ((ColumnarSequentialScan
          [⟨0, 0, [[[some 1]]], true, .committed⟩, ⟨1, 1, [[[some 2]]], true, .committed⟩,
           ⟨2, 2, [[[some 3]]], false, .aborted⟩] [] (fun _ => false) :
        List (Nat × Row)) : Multiset (Nat × Row)) :=
  parallel_scan_exclusive
    [⟨0, 0, [[[some 1]]], true, .committed⟩, ⟨1, 1, [[[some 2]]], true, .committed⟩,
     ⟨2, 2, [[[some 3]]], false, .aborted⟩] [] (fun _ => false) [0, 1, 0] (by decide)

/-- Per-writer ephemeral state under concurrent writing: the first row number
    of the writer's currently reserved stripe (none when no stripe is
    reserved) and the row numbers already returned for that stripe. -/
structure WriterLocal where
  reservedFirst : Option Nat
  curRows : List Nat
deriving Repr, DecidableEq

/-- A writer with no reserved stripe and no buffered rows. -/
def emptyWriter : WriterLocal := ⟨none, []⟩

/-- Shared, per-storage-id state of concurrent writers (spec section 5): the
    stripe capacity from the resolved options, the sole row-number allocator
    (`alloc` is the next unreserved row number, advanced only by the
    reservation step), the per-writer states, the log of every row number
    returned by any `ColumnarWriteRow` call in time order, the reservation
    log in reservation order, and the completed stripes' row-number runs. -/
structure SharedWriteState where
  stripeCapacity : Nat
  alloc : Nat
  writers : List (Nat × WriterLocal)
  log : List Nat
  reservations : List (Nat × Nat)
  stripes : List (List Nat)
deriving Repr, DecidableEq

/-- Current state of a writer (most recent entry wins; absent means idle). -/
def getWriter (st : SharedWriteState) (w : Nat) : WriterLocal :=
  ((st.writers.find? fun e => e.1 == w).map fun e => e.2).getD emptyWriter

/-- Overwrite one writer's state. -/
def setWriter (writers : List (Nat × WriterLocal)) (w : Nat) (x : WriterLocal) :
    List (Nat × WriterLocal) :=
  (w, x) :: writers

/-- Append one row for writer `w` whose current stripe starts at `f` with
    `cur` rows already assigned: the new row number is `f + cur.length`
    (gapless within the stripe); reaching the stripe capacity completes the
    stripe. -/
def sharedAppendRow (st : SharedWriteState) (w : Nat) (f : Nat) (cur : List Nat) :
    Nat × SharedWriteState :=
  let n := f + cur.length
  let cur2 := cur ++ [n]
  if st.stripeCapacity ≤ cur2.length then
    (n, { st with
      log := st.log ++ [n]
      stripes := st.stripes ++ [cur2]
      writers := setWriter st.writers w emptyWriter })
  else
    (n, { st with
      log := st.log ++ [n]
      writers := setWriter st.writers w ⟨some f, cur2⟩ })

/-- Modelled from the spec: `ColumnarWriteRow` as seen by one of several
    concurrent writers of the same storage id (spec sections 4.1 and 5): on
    the first row of a stripe the writer reserves a fresh row-number range of
    `stripeRowCount` rows from the sole allocator; every appended row
    receives the next row number of the writer's reserved range and is
    returned to the caller. -/
def ColumnarWriteRowShared (st : SharedWriteState) (w : Nat) :
    Nat × SharedWriteState :=
  match (getWriter st w).reservedFirst with
  | some f => sharedAppendRow st w f (getWriter st w).curRows
  | none =>
      sharedAppendRow
        { st with
          alloc := st.alloc + st.stripeCapacity
          reservations := st.reservations ++ [(st.alloc, st.stripeCapacity)] }
        w st.alloc []

/-- Modelled from the spec: flushing a writer's partial stripe completes it
    with the rows assigned so far; a writer with no reservation is a
    no-op. -/
def ColumnarFlushShared (st : SharedWriteState) (w : Nat) : SharedWriteState :=
  match (getWriter st w).reservedFirst with
  | none => st
  | some _ =>
      { st with
        stripes := st.stripes ++ [(getWriter st w).curRows]
        writers := setWriter st.writers w emptyWriter }

/-- One event of a concurrent writing history: some writer appends a row, or
    some writer flushes its partial stripe. -/
inductive WriterEvent where
  | write (w : Nat)
  | flush (w : Nat)
deriving Repr, DecidableEq

/-- Fresh shared state for one storage id. -/
def initShared (cap : Nat) : SharedWriteState :=
  ⟨cap, 0, [], [], [], []⟩

/-- One step of a concurrent writing history. -/
def stepSharedWrite (st : SharedWriteState) : WriterEvent → SharedWriteState
  | .write w => (ColumnarWriteRowShared st w).2
  | .flush w => ColumnarFlushShared st w

/-- Any interleaved writing history over one storage id. -/
def runSharedWriters (cap : Nat) (events : List WriterEvent) : SharedWriteState :=
  events.foldl stepSharedWrite (initShared cap)

/-- Invariant of the shared allocator protocol. -/
structure SharedInv (st : SharedWriteState) : Prop where
  logBound : ∀ n ∈ st.log, n < st.alloc
  logNodup : st.log.Nodup
  resRun : ∀ w f, (getWriter st w).reservedFirst = some f →
    (getWriter st w).curRows = List.range' f (getWriter st w).curRows.length
  resBound : ∀ w f, (getWriter st w).reservedFirst = some f →
    f + st.stripeCapacity ≤ st.alloc
  resLen : ∀ w f, (getWriter st w).reservedFirst = some f →
    (getWriter st w).curRows.length < st.stripeCapacity
  resFresh : ∀ w f, (getWriter st w).reservedFirst = some f →
    ∀ m, f + (getWriter st w).curRows.length ≤ m → m < f + st.stripeCapacity →
      m ∉ st.log
  unresEmpty : ∀ w, (getWriter st w).reservedFirst = none →
    (getWriter st w).curRows = []
  resDisj : ∀ w w2 f f2, w ≠ w2 → (getWriter st w).reservedFirst = some f →
    (getWriter st w2).reservedFirst = some f2 →
    f + st.stripeCapacity ≤ f2 ∨ f2 + st.stripeCapacity ≤ f
  stripesRun : ∀ rs ∈ st.stripes, ∃ f, rs = List.range' f rs.length
  resAllocBound : ∀ fc ∈ st.reservations, fc.1 + fc.2 ≤ st.alloc
  resChain : List.Chain' (fun a b : Nat × Nat => a.1 + a.2 ≤ b.1) st.reservations

lemma getWriter_mk (cap alloc : Nat) (writers : List (Nat × WriterLocal))
    (log : List Nat) (reservations : List (Nat × Nat)) (stripes : List (List Nat))
    (w : Nat) :
    getWriter ⟨cap, alloc, writers, log, reservations, stripes⟩ w =
      ((writers.find? fun e => e.1 == w).map fun e => e.2).getD emptyWriter := rfl

lemma lookup_set_self (writers : List (Nat × WriterLocal)) (w : Nat)
    (x : WriterLocal) :
    (((setWriter writers w x).find? fun e => e.1 == w).map fun e => e.2).getD
      emptyWriter = x := by
  simp [setWriter]

lemma lookup_set_other (writers : List (Nat × WriterLocal)) (w w2 : Nat)
    (x : WriterLocal) (h : w2 ≠ w) :
    (((setWriter writers w x).find? fun e => e.1 == w2).map fun e => e.2).getD
      emptyWriter =
      ((writers.find? fun e => e.1 == w2).map fun e => e.2).getD emptyWriter := by
  simp only [setWriter]
  rw [List.find?_cons_of_neg writers (by simp [Ne.symm h])]

lemma range'_snoc (f len : Nat) :
    List.range' f len ++ [f + len] = List.range' f (len + 1) := by
  induction len generalizing f with
  | zero => simp
  | succ k ih =>
    show f :: (List.range' (f + 1) k ++ [f + (k + 1)]) = f :: List.range' (f + 1) (k + 1)
    congr 1
    have h : f + (k + 1) = (f + 1) + k := by omega
    rw [h]
    exact ih (f + 1)

lemma nodup_append_singleton {l : List Nat} {n : Nat} (h : l.Nodup) (hn : n ∉ l) :
    (l ++ [n]).Nodup := by
  rw [List.nodup_append]
  exact ⟨h, List.nodup_singleton n,
    fun a ha hb => hn ((List.mem_singleton.mp hb) ▸ ha)⟩

lemma inv_sharedAppendRow (st : SharedWriteState) (w f len : Nat)
    (hinv : SharedInv st)
    (hbound : f + st.stripeCapacity ≤ st.alloc)
    (hlen : len < st.stripeCapacity)
    (hfresh : ∀ m, f + len ≤ m → m < f + st.stripeCapacity → m ∉ st.log)
    (hdisj : ∀ w2 f2, w2 ≠ w → (getWriter st w2).reservedFirst = some f2 →
      f + st.stripeCapacity ≤ f2 ∨ f2 + st.stripeCapacity ≤ f) :
    SharedInv (sharedAppendRow st w f (List.range' f len)).2 := by
  have hncap : f + len < f + st.stripeCapacity := by omega
  have hnal : f + len < st.alloc := by omega
  have hnnot : f + len ∉ st.log := hfresh _ (le_refl _) hncap
  have hsnoc := range'_snoc f len
  simp only [sharedAppendRow, List.length_range']
  split_ifs with hfull
  · -- the chunk reaches capacity: the stripe completes and the writer resets
    dsimp only
    refine ⟨?_, ?_, ?_, ?_, ?_, ?_, ?_, ?_, ?_, ?_, ?_⟩
    · intro n hn
      dsimp only at hn ⊢
      rcases List.mem_append.mp hn with hn | hn
      · exact hinv.logBound n hn
      · rw [List.mem_singleton.mp hn]
        exact hnal
    · exact nodup_append_singleton hinv.logNodup hnnot
    · intro w2 f2 hre
      by_cases hw : w2 = w
      · rw [show getWriter _ w2 = emptyWriter from by
          simp [getWriter, setWriter, hw]] at hre
        cases hre
      · rw [show getWriter _ w2 = getWriter st w2 from by
          simp only [getWriter]
          exact lookup_set_other st.writers w w2 emptyWriter hw] at hre ⊢
        exact hinv.resRun w2 f2 hre
    · intro w2 f2 hre
      dsimp only
      by_cases hw : w2 = w
      · rw [show getWriter _ w2 = emptyWriter from by
          simp [getWriter, setWriter, hw]] at hre
        cases hre
      · rw [show getWriter _ w2 = getWriter st w2 from by
          simp only [getWriter]
          exact lookup_set_other st.writers w w2 emptyWriter hw] at hre
        exact hinv.resBound w2 f2 hre
    · intro w2 f2 hre
      dsimp only
      by_cases hw : w2 = w
      · rw [show getWriter _ w2 = emptyWriter from by
          simp [getWriter, setWriter, hw]] at hre
        cases hre
      · rw [show getWriter _ w2 = getWriter st w2 from by
          simp only [getWriter]
          exact lookup_set_other st.writers w w2 emptyWriter hw] at hre ⊢
        exact hinv.resLen w2 f2 hre
    · intro w2 f2 hre m hm1 hm2 hmem
      dsimp only at hm2 hmem
      by_cases hw : w2 = w
      · rw [show getWriter _ w2 = emptyWriter from by
          simp [getWriter, setWriter, hw]] at hre
        cases hre
      · rw [show getWriter _ w2 = getWriter st w2 from by
          simp only [getWriter]
          exact lookup_set_other st.writers w w2 emptyWriter hw] at hre hm1
        rcases List.mem_append.mp hmem with hmem | hmem
        · exact hinv.resFresh w2 f2 hre m hm1 hm2 hmem
        · have hmn : m = f + len := List.mem_singleton.mp hmem
          have hb2 := hinv.resBound w2 f2 hre
          rcases hdisj w2 f2 hw hre with hd | hd <;> omega
    · intro w2 hre
      by_cases hw : w2 = w
      · rw [show getWriter _ w2 = emptyWriter from by
          simp [getWriter, setWriter, hw]]
        rfl
      · rw [show getWriter _ w2 = getWriter st w2 from by
          simp only [getWriter]
          exact lookup_set_other st.writers w w2 emptyWriter hw] at hre ⊢
        exact hinv.unresEmpty w2 hre
    · intro w2 w3 f2 f3 hne hre2 hre3
      dsimp only
      by_cases hw2 : w2 = w
      · rw [show getWriter _ w2 = emptyWriter from by
          simp [getWriter, setWriter, hw2]] at hre2
        cases hre2
      · by_cases hw3 : w3 = w
        · rw [show getWriter _ w3 = emptyWriter from by
            simp [getWriter, setWriter, hw3]] at hre3
          cases hre3
        · rw [show getWriter _ w2 = getWriter st w2 from by
            simp only [getWriter]
            exact lookup_set_other st.writers w w2 emptyWriter hw2] at hre2
          rw [show getWriter _ w3 = getWriter st w3 from by
            simp only [getWriter]
            exact lookup_set_other st.writers w w3 emptyWriter hw3] at hre3
          exact hinv.resDisj w2 w3 f2 f3 hne hre2 hre3
    · intro rs hrs
      dsimp only at hrs
      rcases List.mem_append.mp hrs with hrs | hrs
      · exact hinv.stripesRun rs hrs
      · rw [List.mem_singleton.mp hrs]
        refine ⟨f, ?_⟩
        rw [hsnoc]
        simp
    · intro fc hfc
      exact hinv.resAllocBound fc hfc
    · exact hinv.resChain
  · -- the chunk is still short of capacity: the writer keeps the stripe open
    dsimp only
    refine ⟨?_, ?_, ?_, ?_, ?_, ?_, ?_, ?_, ?_, ?_, ?_⟩
    · intro n hn
      dsimp only at hn ⊢
      rcases List.mem_append.mp hn with hn | hn
      · exact hinv.logBound n hn
      · rw [List.mem_singleton.mp hn]
        exact hnal
    · exact nodup_append_singleton hinv.logNodup hnnot
    · intro w2 f2 hre
      by_cases hw : w2 = w
      · rw [show getWriter _ w2 = ⟨some f, List.range' f len ++ [f + len]⟩ from by
          simp [getWriter, setWriter, hw]] at hre ⊢
        cases hre
        rw [hsnoc]
        simp
      · rw [show getWriter _ w2 = getWriter st w2 from by
          simp only [getWriter]
          exact lookup_set_other st.writers w w2 _ hw] at hre ⊢
        exact hinv.resRun w2 f2 hre
    · intro w2 f2 hre
      dsimp only
      by_cases hw : w2 = w
      · rw [show getWriter _ w2 = ⟨some f, List.range' f len ++ [f + len]⟩ from by
          simp [getWriter, setWriter, hw]] at hre
        cases hre
        exact hbound
      · rw [show getWriter _ w2 = getWriter st w2 from by
          simp only [getWriter]
          exact lookup_set_other st.writers w w2 _ hw] at hre
        exact hinv.resBound w2 f2 hre
    · intro w2 f2 hre
      dsimp only
      by_cases hw : w2 = w
      · rw [show getWriter _ w2 = ⟨some f, List.range' f len ++ [f + len]⟩ from by
          simp [getWriter, setWriter, hw]] at hre ⊢
        simp only [List.length_append, List.length_range', List.length_singleton] at hfull ⊢
        omega
      · rw [show getWriter _ w2 = getWriter st w2 from by
          simp only [getWriter]
          exact lookup_set_other st.writers w w2 _ hw] at hre ⊢
        exact hinv.resLen w2 f2 hre
    · intro w2 f2 hre m hm1 hm2 hmem
      dsimp only at hm2 hmem
      by_cases hw : w2 = w
      · rw [show getWriter _ w2 = ⟨some f, List.range' f len ++ [f + len]⟩ from by
          simp [getWriter, setWriter, hw]] at hre hm1
        cases hre
        simp only [List.length_append, List.length_range', List.length_singleton] at hm1
        rcases List.mem_append.mp hmem with hmem | hmem
        · exact hfresh m (by omega) hm2 hmem
        · have := List.mem_singleton.mp hmem
          omega
      · rw [show getWriter _ w2 = getWriter st w2 from by
          simp only [getWriter]
          exact lookup_set_other st.writers w w2 _ hw] at hre hm1
        rcases List.mem_append.mp hmem with hmem | hmem
        · exact hinv.resFresh w2 f2 hre m hm1 hm2 hmem
        · have hmn : m = f + len := List.mem_singleton.mp hmem
          have hb2 := hinv.resBound w2 f2 hre
          rcases hdisj w2 f2 hw hre with hd | hd <;> omega
    · intro w2 hre
      by_cases hw : w2 = w
      · rw [show getWriter _ w2 = ⟨some f, List.range' f len ++ [f + len]⟩ from by
          simp [getWriter, setWriter, hw]] at hre
        cases hre
      · rw [show getWriter _ w2 = getWriter st w2 from by
          simp only [getWriter]
          exact lookup_set_other st.writers w w2 _ hw] at hre ⊢
        exact hinv.unresEmpty w2 hre
    · intro w2 w3 f2 f3 hne hre2 hre3
      dsimp only
      by_cases hw2 : w2 = w
      · rw [show getWriter _ w2 = ⟨some f, List.range' f len ++ [f + len]⟩ from by
          simp [getWriter, setWriter, hw2]] at hre2
        cases hre2
        by_cases hw3 : w3 = w
        · exact absurd (hw2.trans hw3.symm) hne
        · rw [show getWriter _ w3 = getWriter st w3 from by
            simp only [getWriter]
            exact lookup_set_other st.writers w w3 _ hw3] at hre3
          exact hdisj w3 f3 hw3 hre3
      · by_cases hw3 : w3 = w
        · rw [show getWriter _ w3 = ⟨some f, List.range' f len ++ [f + len]⟩ from by
            simp [getWriter, setWriter, hw3]] at hre3
          cases hre3
          rw [show getWriter _ w2 = getWriter st w2 from by
            simp only [getWriter]
            exact lookup_set_other st.writers w w2 _ hw2] at hre2
          exact (hdisj w2 f2 hw2 hre2).symm
        · rw [show getWriter _ w2 = getWriter st w2 from by
            simp only [getWriter]
            exact lookup_set_other st.writers w w2 _ hw2] at hre2
          rw [show getWriter _ w3 = getWriter st w3 from by
            simp only [getWriter]
            exact lookup_set_other st.writers w w3 _ hw3] at hre3
          exact hinv.resDisj w2 w3 f2 f3 hne hre2 hre3
    · intro rs hrs
      exact hinv.stripesRun rs hrs
    · intro fc hfc
      exact hinv.resAllocBound fc hfc
    · exact hinv.resChain

lemma mem_of_getLast?_mem {l : List (Nat × Nat)} {x : Nat × Nat}
    (h : x ∈ l.getLast?) : x ∈ l := by
  rcases List.mem_getLast?_eq_getLast h with ⟨hne, rfl⟩
  exact List.getLast_mem hne

lemma inv_write (st : SharedWriteState) (w : Nat) (hcap : 0 < st.stripeCapacity)
    (hinv : SharedInv st) : SharedInv (ColumnarWriteRowShared st w).2 := by
  unfold ColumnarWriteRowShared
  cases hres : (getWriter st w).reservedFirst with
  | some f =>
    have hrun := hinv.resRun w f hres
    rw [hrun]
    exact inv_sharedAppendRow st w f (getWriter st w).curRows.length hinv
      (hinv.resBound w f hres) (hinv.resLen w f hres) (hinv.resFresh w f hres)
      (fun w2 f2 hne hre2 => hinv.resDisj w w2 f f2 (Ne.symm hne) hres hre2)
  | none =>
    have hinv2 : SharedInv { st with
        alloc := st.alloc + st.stripeCapacity
        reservations := st.reservations ++ [(st.alloc, st.stripeCapacity)] } := by
      refine ⟨?_, hinv.logNodup, ?_, ?_, ?_, ?_, hinv.unresEmpty, ?_,
        hinv.stripesRun, ?_, ?_⟩
      · intro n hn
        dsimp only at hn ⊢
        have := hinv.logBound n hn
        omega
      · intro w2 f2 hre
        exact hinv.resRun w2 f2 hre
      · intro w2 f2 hre
        dsimp only
        have := hinv.resBound w2 f2 hre
        omega
      · intro w2 f2 hre
        dsimp only
        exact hinv.resLen w2 f2 hre
      · intro w2 f2 hre m hm1 hm2 hmem
        dsimp only at hm2 hmem
        exact hinv.resFresh w2 f2 hre m hm1 hm2 hmem
      · intro w2 w3 f2 f3 hne h2 h3
        dsimp only
        exact hinv.resDisj w2 w3 f2 f3 hne h2 h3
      · intro fc hfc
        dsimp only at hfc ⊢
        rcases List.mem_append.mp hfc with h | h
        · have := hinv.resAllocBound fc h
          omega
        · rw [List.mem_singleton.mp h]
      · dsimp only
        rw [List.chain'_append]
        refine ⟨hinv.resChain, List.chain'_singleton _, ?_⟩
        intro x hx y hy
        have hx2 : x ∈ st.reservations := mem_of_getLast?_mem hx
        have hy2 : (st.alloc, st.stripeCapacity) = y := by simpa using hy
        have := hinv.resAllocBound x hx2
        rw [← hy2]
        exact this
    have h := inv_sharedAppendRow { st with
        alloc := st.alloc + st.stripeCapacity
        reservations := st.reservations ++ [(st.alloc, st.stripeCapacity)] }
      w st.alloc 0 hinv2 (by dsimp only; omega) (by dsimp only; exact hcap)
      (by
        intro m hm1 hm2
        dsimp only at hm2 ⊢
        intro hmem
        have := hinv.logBound m hmem
        omega)
      (by
        intro w2 f2 hne hre
        dsimp only
        have := hinv.resBound w2 f2 hre
        omega)
    exact h

lemma inv_flush (st : SharedWriteState) (w : Nat) (hinv : SharedInv st) :
    SharedInv (ColumnarFlushShared st w) := by
  unfold ColumnarFlushShared
  cases hres : (getWriter st w).reservedFirst with
  | none => exact hinv
  | some f =>
    refine ⟨hinv.logBound, hinv.logNodup, ?_, ?_, ?_, ?_, ?_, ?_, ?_, ?_,
      hinv.resChain⟩
    · intro w2 f2 hre
      by_cases hw : w2 = w
      · rw [show getWriter _ w2 = emptyWriter from by
          simp [getWriter, setWriter, hw]] at hre
        cases hre
      · rw [show getWriter _ w2 = getWriter st w2 from by
          simp only [getWriter]
          exact lookup_set_other st.writers w w2 emptyWriter hw] at hre ⊢
        exact hinv.resRun w2 f2 hre
    · intro w2 f2 hre
      dsimp only
      by_cases hw : w2 = w
      · rw [show getWriter _ w2 = emptyWriter from by
          simp [getWriter, setWriter, hw]] at hre
        cases hre
      · rw [show getWriter _ w2 = getWriter st w2 from by
          simp only [getWriter]
          exact lookup_set_other st.writers w w2 emptyWriter hw] at hre
        exact hinv.resBound w2 f2 hre
    · intro w2 f2 hre
      dsimp only
      by_cases hw : w2 = w
      · rw [show getWriter _ w2 = emptyWriter from by
          simp [getWriter, setWriter, hw]] at hre
        cases hre
      · rw [show getWriter _ w2 = getWriter st w2 from by
          simp only [getWriter]
          exact lookup_set_other st.writers w w2 emptyWriter hw] at hre ⊢
        exact hinv.resLen w2 f2 hre
    · intro w2 f2 hre m hm1 hm2 hmem
      dsimp only at hm2 hmem
      by_cases hw : w2 = w
      · rw [show getWriter _ w2 = emptyWriter from by
          simp [getWriter, setWriter, hw]] at hre
        cases hre
      · rw [show getWriter _ w2 = getWriter st w2 from by
          simp only [getWriter]
          exact lookup_set_other st.writers w w2 emptyWriter hw] at hre hm1
        exact hinv.resFresh w2 f2 hre m hm1 hm2 hmem
    · intro w2 hre
      by_cases hw : w2 = w
      · rw [show getWriter _ w2 = emptyWriter from by
          simp [getWriter, setWriter, hw]]
        rfl
      · rw [show getWriter _ w2 = getWriter st w2 from by
          simp only [getWriter]
          exact lookup_set_other st.writers w w2 emptyWriter hw] at hre ⊢
        exact hinv.unresEmpty w2 hre
    · intro w2 w3 f2 f3 hne hre2 hre3
      dsimp only
      by_cases hw2 : w2 = w
      · rw [show getWriter _ w2 = emptyWriter from by
          simp [getWriter, setWriter, hw2]] at hre2
        cases hre2
      · by_cases hw3 : w3 = w
        · rw [show getWriter _ w3 = emptyWriter from by
            simp [getWriter, setWriter, hw3]] at hre3
          cases hre3
        · rw [show getWriter _ w2 = getWriter st w2 from by
            simp only [getWriter]
            exact lookup_set_other st.writers w w2 emptyWriter hw2] at hre2
          rw [show getWriter _ w3 = getWriter st w3 from by
            simp only [getWriter]
            exact lookup_set_other st.writers w w3 emptyWriter hw3] at hre3
          exact hinv.resDisj w2 w3 f2 f3 hne hre2 hre3
    · intro rs hrs
      dsimp only at hrs
      rcases List.mem_append.mp hrs with hrs | hrs
      · exact hinv.stripesRun rs hrs
      · rw [List.mem_singleton.mp hrs]
        exact ⟨f, hinv.resRun w f hres⟩
    · intro fc hfc
      exact hinv.resAllocBound fc hfc

lemma inv_init (cap : Nat) : SharedInv (initShared cap) := by
  refine ⟨?_, List.nodup_nil, ?_, ?_, ?_, ?_, ?_, ?_, ?_, ?_, List.chain'_nil⟩
  · intro n hn
    cases hn
  · intro w f h
    cases h
  · intro w f h
    cases h
  · intro w f h
    cases h
  · intro w f h
    cases h
  · intro w _
    rfl
  · intro w2 w3 f2 f3 _ h2 _
    cases h2
  · intro rs hrs
    cases hrs
  · intro fc hfc
    cases hfc

lemma stepSharedWrite_capacity (st : SharedWriteState) (ev : WriterEvent) :
    (stepSharedWrite st ev).stripeCapacity = st.stripeCapacity := by
  cases ev with
  | write w =>
    show (ColumnarWriteRowShared st w).2.stripeCapacity = _
    unfold ColumnarWriteRowShared
    cases (getWriter st w).reservedFirst with
    | some f =>
      unfold sharedAppendRow
      dsimp only
      split_ifs <;> rfl
    | none =>
      unfold sharedAppendRow
      dsimp only
      split_ifs <;> rfl
  | flush w =>
    show (ColumnarFlushShared st w).stripeCapacity = _
    unfold ColumnarFlushShared
    cases (getWriter st w).reservedFirst <;> rfl

lemma inv_run_general (events : List WriterEvent) :
    ∀ st : SharedWriteState, SharedInv st → 0 < st.stripeCapacity →
    SharedInv (events.foldl stepSharedWrite st) := by
  induction events with
  | nil => intro st hinv _; exact hinv
  | cons ev evs ih =>
    intro st hinv hcap
    have hinv2 : SharedInv (stepSharedWrite st ev) := by
      cases ev with
      | write w => exact inv_write st w hcap hinv
      | flush w => exact inv_flush st w hinv
    have hcap2 : 0 < (stepSharedWrite st ev).stripeCapacity := by
      rw [stepSharedWrite_capacity]
      exact hcap
    exact ih (stepSharedWrite st ev) hinv2 hcap2

lemma inv_run (cap : Nat) (hcap : 0 < cap) (events : List WriterEvent) :
    SharedInv (runSharedWriters cap events) :=
  inv_run_general events (initShared cap) (inv_init cap) hcap

lemma chain'_succ_range' : ∀ (n f : Nat),
    List.Chain' (fun a b => b = a + 1) (List.range' f n)
  | 0, _ => List.chain'_nil
  | 1, f => List.chain'_singleton f
  | n + 2, f => by
    show List.Chain' _ (f :: (f + 1) :: List.range' (f + 2) n)
    rw [List.chain'_cons]
    exact ⟨rfl, chain'_succ_range' (n + 1) (f + 1)⟩

/-- C4: under any interleaving of concurrent writers of one storage id (with
    a positive stripe capacity, as option validation guarantees),
    `ColumnarWriteRow` returns the row number assigned to the appended row
    and: every row number ever returned is unique across the whole storage
    id; within any single stripe the returned row numbers form a strictly
    increasing, gapless run; and the ranges handed out by the reservation
    step (the sole allocator) are monotonically increasing and
    non-overlapping regardless of writer ordering. -/
theorem row_numbers_unique_monotonic (cap : Nat) (hcap : 0 < cap)
    (events : List WriterEvent) :
    (runSharedWriters cap events).log.Nodup ∧
    (∀ rs ∈ (runSharedWriters cap events).stripes,
      List.Chain' (fun a b => b = a + 1) rs) ∧
    List.Chain' (fun a b : Nat × Nat => a.1 + a.2 ≤ b.1)
      (runSharedWriters cap events).reservations := by
  have hinv := inv_run cap hcap events
  refine ⟨hinv.logNodup, ?_, hinv.resChain⟩
  intro rs hrs
  obtain ⟨f, hf⟩ := hinv.stripesRun rs hrs
  rw [hf]
  exact chain'_succ_range' rs.length f

/-- Witness for C4: two writers interleaving appends with capacity 2. -/
theorem row_numbers_unique_monotonic_witness :
    (runSharedWriters 2 [.write 0, .write 1, .write 0, .flush 1, .write 1]).log.Nodup ∧
    (∀ rs ∈ (runSharedWriters 2
        [.write 0, .write 1, .write 0, .flush 1, .write 1]).stripes,
      List.Chain' (fun a b => b = a + 1) rs) ∧
    List.Chain' (fun a b : Nat × Nat => a.1 + a.2 ≤ b.1)
      (runSharedWriters 2 [.write 0, .write 1, .write 0, .flush 1, .write 1]).reservations :=
  row_numbers_unique_monotonic 2 (by decide)
    [.write 0, .write 1, .write 0, .flush 1, .write 1]
